import Mathlib

/-!
# A verification development for a minimal git clone implementation

Shallow embedding of the packfile / object-store / delta subsystem of a
small content-addressed version-control system written in Go
(`cmd/mygit/clone.go`, `cmd/mygit/object.go`).

Conventions of the embedding:
* Byte strings are `List Nat`; where a property genuinely depends on the
  entries being bytes, a hypothesis `∀ b ∈ l, b < 256` appears in the theorem.
* Go functions returning `error` become `Except String`-valued functions; a
  Go runtime panic (slice index out of range) is embedded as an error whose
  message starts with "panic:".  Either way the surrounding operation aborts.
* SHA-1 is an external library primitive (`crypto/sha1`); it is a parameter
  `sha1 : List Nat → List Nat` of every definition that hashes.
* zlib deflate/inflate are external library primitives; the object store is
  modelled as holding the *uncompressed* object data (deflate-on-write and
  inflate-on-read cancel), and the packfile object iterator takes the inflater
  as a parameter `inflate : List Nat → Except String (Nat × List Nat)`
  returning (compressed bytes consumed, inflated bytes), exactly the contract
  of `readObjectInPackfile`.
* Go `uint64` arithmetic is `Nat` with an explicit `% 2 ^ 64` where the Go
  code can overflow (the size-varint accumulator of `readSize`).
-/

/-- Bytes of a Lean string (all source strings involved are ASCII). -/
def strBytes (s : String) : List Nat :=
  s.toList.map Char.toNat

/-- A byte list rendered as a Lean string (inverse of `strBytes` on ASCII). -/
def bytesToString (l : List Nat) : String :=
  String.mk (l.map Char.ofNat)

/-- One hex digit (lowercase), as Go's `encoding/hex` encoder writes it. -/
def hexDigitByte (d : Nat) : Nat :=
  if d < 10 then 48 + d else 87 + d

/-- `hex.EncodeToString` / `fmt.Sprintf "%x"` over a byte slice: two lowercase
hex digits per byte, high nibble first. -/
def hexDump (l : List Nat) : String :=
  String.mk ((l.flatMap fun b => [hexDigitByte ((b >>> 4) &&& 15), hexDigitByte (b &&& 15)]).map Char.ofNat)

/-- Decimal digits of a natural number, structurally recursive on a fuel
argument so that the definition evaluates by kernel reduction; `n < fuel`
always holds at every call (the wrapper passes `n + 1` and the recursion
divides by ten), so the `[]` base case is never reached. -/
def natToDecBytesF : Nat → Nat → List Nat
  | 0, _ => []
  | fuel + 1, n => if n < 10 then [48 + n] else natToDecBytesF fuel (n / 10) ++ [48 + n % 10]

/-- Decimal digits (ASCII) of a natural number, as Go's `fmt.Fprintf "%d"`
renders a non-negative length. -/
def natToDecBytes (n : Nat) : List Nat :=
  natToDecBytesF (n + 1) n

/-- Value of a run of ASCII decimal digits (the reading a `%d` scan verb
performs on a digit run). -/
def decBytesVal (l : List Nat) : Nat :=
  l.foldl (fun a d => a * 10 + (d - 48)) 0

/-- Whitespace for Go's `fmt` scanning verbs (ASCII part of `unicode.IsSpace`). -/
def isGoSpace (b : Nat) : Bool :=
  b = 32 || b = 9 || b = 10 || b = 11 || b = 12 || b = 13

/-- ASCII decimal digit. -/
def isDecDigit (b : Nat) : Bool :=
  48 ≤ b && b ≤ 57

/-- `bytes.IndexByte(l, 0)`: index of the first NUL byte, `none` when absent
(Go returns -1). -/
def idxOfZero : List Nat → Option Nat
  | [] => none
  | b :: t => if b = 0 then some 0 else (idxOfZero t).map (· + 1)

/-- `fmt.Sscanf(s, "%s %d", ...)` over a header string: first token is the
maximal run of non-whitespace bytes (after skipping leading whitespace), then
whitespace is skipped and a decimal number is read.  Go ignores the returned
scan error, leaving the int at its zero value when no digits are found, which
the model reproduces by returning 0 for an empty digit run.  (The `%d` verb is
modelled for the non-negative numbers the writer produces.) -/
def scanStrNat (l : List Nat) : List Nat × Nat :=
  let l1 := l.dropWhile isGoSpace
  let t1 := l1.takeWhile (fun b => !isGoSpace b)
  let r1 := l1.drop t1.length
  let t2 := (r1.dropWhile isGoSpace).takeWhile isDecDigit
  (t1, decBytesVal t2)

/-- `fmt.Sscanf(s, "%s %s", ...)`: two whitespace-delimited tokens; a missing
token is left at its zero value (empty). -/
def scanStrStr (l : List Nat) : List Nat × List Nat :=
  let l1 := l.dropWhile isGoSpace
  let t1 := l1.takeWhile (fun b => !isGoSpace b)
  let r1 := l1.drop t1.length
  let t2 := (r1.dropWhile isGoSpace).takeWhile (fun b => !isGoSpace b)
  (t1, t2)

/-!
## The object store

`.git/objects/<hh>/<38-hex>` with zlib-compressed `"<type> <size>\0<payload>"`
content.  The store is an association list from the 40-hex name to the
*uncompressed* typed object data; the most recent write shadows older ones,
matching a filesystem overwrite.
-/

/-- The object store: 40-hex object name ↦ uncompressed typed object data. -/
def Store : Type := List (String × List Nat)

instance : DecidableEq Store := by
  unfold Store; infer_instance

deriving instance DecidableEq for Except

/-- `readObject`: read the object file and inflate it (file read and zlib
inflate are external; a missing key is the file-not-found error). -/
def readObject (store : Store) (object : String) : Except String (List Nat) :=
  match List.lookup object store with
  | none => .error "error on reading object file"
  | some data => .ok data

/-- `writeObject`: hash the uncompressed data, deflate, and write the object
file under the fan-out path derived from the hex hash.  Returns the raw
20-byte hash as the Go function does. -/
def writeObject (sha1 : List Nat → List Nat) (store : Store) (objectData : List Nat) :
    List Nat × Store :=
  let object := sha1 objectData
  (object, (hexDump object, objectData) :: store)

/-- The typed serialized form `"<type> <size>\0<payload>"` that
`writeObjectWithType` builds with `fmt.Fprintf(&blob, "%s %d", ...)`. -/
def typedSerialize (objectType : String) (object : List Nat) : List Nat :=
  strBytes objectType ++ [32] ++ natToDecBytes object.length ++ [0] ++ object

/-- `writeObjectWithType`: serialize the typed form and delegate to
`writeObject`. -/
def writeObjectWithType (sha1 : List Nat → List Nat) (store : Store)
    (object : List Nat) (objectType : String) : List Nat × Store :=
  writeObject sha1 store (typedSerialize objectType object)

/-- `objectExists`: the fan-out path exists. -/
def objectExists (store : Store) (hash : String) : Bool :=
  (List.lookup hash store).isSome

/-- `openObject`: read an object, split at the first NUL, scan
`"<type> <size>"` from the header, require `idx + size + 1 == len(objectData)`
and return (payload, type).  Go's `objectData[:idx]` with `IndexByte` = -1
panics, embedded as an error. -/
def openObject (store : Store) (object : String) : Except String (List Nat × String) :=
  match readObject store object with
  | .error e => .error e
  | .ok objectData =>
    match idxOfZero objectData with
    | none => .error "panic: slice bounds out of range"
    | some idx =>
      let st := scanStrNat (objectData.take idx)
      if idx + st.2 + 1 ≠ objectData.length then .error "bad object size"
      else .ok (objectData.drop (idx + 1), bytesToString st.1)

example : idxOfZero [1, 2, 0, 3] = some 2 := by decide
example : scanStrNat (strBytes "blob 6") = (strBytes "blob", 6) := by decide
example : hexDump [0, 255, 16] = "00ff10" := by decide

/-!
## Size varints (`readSize`, `readObjectHeader`)

Both loops in the Go source accumulate into a `uint64` with
`size += uint64(data&0x7F) << shift`, reject a shift of 64 or more bits or a
truncated stream, and otherwise continue while bit 7 of the previous byte is
set.  The accumulator wraps modulo 2^64 exactly as Go's `uint64` does.
-/

/-- The continuation loop shared by `readSize` and `readObjectHeader`:
`rest` is the unread part of the input, `data` the byte read last, `size` the
accumulator, `shift` the next shift amount and `used` the bytes consumed. -/
def readSizeLoop (msg : String) : List Nat → Nat → Nat → Nat → Nat → Except String (Nat × Nat)
  | rest, data, size, shift, used =>
    if data &&& 0x80 = 0 then .ok (size, used)
    else
      match rest with
      | [] => .error msg
      | d :: rest' =>
        if 64 ≤ shift then .error msg
        else readSizeLoop msg rest' d ((size + (d &&& 0x7F) <<< shift) % 2 ^ 64) (shift + 7) (used + 1)

/-- `readSize`: little-endian base-128 size varint, low 7 bits per byte,
64-bit accumulator.  Reading from an empty slice panics in Go
(`packfile[used]` with `used = 0`). -/
def readSize (packfile : List Nat) : Except String (Nat × Nat) :=
  match packfile with
  | [] => .error "panic: index out of range"
  | d :: rest => readSizeLoop "bad size" rest d (d &&& 0x7F) 7 1

/-- `readObjectHeader`: first byte carries the object type in bits 4-6 and the
low 4 bits of the size; continuation bytes add 7 bits each.  Returns
(size, objectType, used). -/
def readObjectHeader (packfile : List Nat) : Except String (Nat × Nat × Nat) :=
  match packfile with
  | [] => .error "panic: index out of range"
  | d :: rest =>
    match readSizeLoop "bad object header" rest d (d &&& 0xF) 4 1 with
    | .error e => .error e
    | .ok (size, used) => .ok (size, (d >>> 4) &&& 0x7, used)

/-- `readUint32BigEndian` over the first four bytes of a list (all call sites
guarantee at least four bytes; `getD` supplies 0 past the end). -/
def readUint32BigEndian (bytes : List Nat) : Nat :=
  (bytes.getD 0 0) <<< 24 ||| (bytes.getD 1 0) <<< 16 ||| (bytes.getD 2 0) <<< 8 ||| bytes.getD 3 0

/-!
## Pkt-line framing
-/

/-- Go's `encoding/hex` digit decoder (`fromHexChar`): accepts `0-9`, `a-f`,
`A-F`. -/
def fromHexChar (c : Nat) : Option Nat :=
  if 48 ≤ c ∧ c ≤ 57 then some (c - 48)
  else if 97 ≤ c ∧ c ≤ 102 then some (c - 97 + 10)
  else if 65 ≤ c ∧ c ≤ 70 then some (c - 65 + 10)
  else none

/-- `hex.Decode` of the 4-byte length field followed by
`size := uint16(dst[0])<<8 | uint16(dst[1])`: the pkt-line total length. -/
def hexDecode4 (l : List Nat) : Option Nat :=
  match l with
  | [a, b, c, d] =>
    match fromHexChar a, fromHexChar b, fromHexChar c, fromHexChar d with
    | some va, some vb, some vc, some vd => some (((va <<< 4 ||| vb) <<< 8) ||| (vc <<< 4 ||| vd))
    | _, _, _, _ => none
  | _ => none

/-- `readPktLine`: read the 4-hex-digit total length, return `(4, [])` for a
flush packet, check the remaining length, slice out the payload and strip one
trailing newline.  Go panics on fewer than 4 input bytes (`blob[:4]`), on a
declared length 1-3 (`blob[:size-4]` with a negative bound) and on a declared
length of exactly 4 (`data[len(data)-1]` on an empty slice); each panic is an
error here.  Returns (bytes consumed, payload). -/
def readPktLine (blob : List Nat) : Except String (Nat × List Nat) :=
  if blob.length < 4 then .error "panic: slice bounds out of range"
  else
    match hexDecode4 (blob.take 4) with
    | none => .error "error decoding pkt length"
    | some size =>
      if size = 0 then .ok (4, [])
      else if (blob.drop 4).length < size - 4 then .error "error reading pkt line"
      else if size < 4 then .error "panic: slice bounds out of range"
      else if size = 4 then .error "panic: index out of range"
      else
        let data := (blob.drop 4).take (size - 4)
        let data := if data.getLast? = some 10 then data.dropLast else data
        .ok (size, data)

/-- Modelled from the spec: the pkt-line *frame* of a payload (the source only
parses pkt-lines, it never builds one): total length `|p|+4` as four lowercase
hex digits followed by the payload, and the flush packet `"0000"` for the
empty payload. -/
def hex4Bytes (v : Nat) : List Nat :=
  [hexDigitByte (v / 4096 % 16), hexDigitByte (v / 256 % 16),
   hexDigitByte (v / 16 % 16), hexDigitByte (v % 16)]

/-- Modelled from the spec: `frame p` (see `hex4Bytes`). -/
def frame (p : List Nat) : List Nat :=
  if p = [] then strBytes "0000" else hex4Bytes (p.length + 4) ++ p

/-- The payload with one trailing newline stripped, as the pkt-line reader
returns it. -/
def stripTrailingNewline (p : List Nat) : List Nat :=
  if p.getLast? = some 10 then p.dropLast else p

/-!
## Packfile envelope (`verifyPackfile`)
-/

/-- `verifyPackfile`: at least 32 bytes, trailing 20 bytes equal the SHA-1 of
the prefix, magic `"PACK"`, 4-byte big-endian version 2 or 3. -/
def verifyPackfile (sha1 : List Nat → List Nat) (packfile : List Nat) : Except String Unit :=
  if packfile.length < 32 then .error "bad packfile"
  else
    let checksum := packfile.drop (packfile.length - 20)
    let body := packfile.take (packfile.length - 20)
    if checksum ≠ sha1 body then .error "invalid packfile checksum"
    else if body.take 4 ≠ strBytes "PACK" then .error "invalid packfile header"
    else
      let version := readUint32BigEndian (body.drop 4)
      if version ≠ 2 ∧ version ≠ 3 then .error "invalid packfile version"
      else .ok ()

example : readSize [0x85, 0x03] = .ok (389, 2) := by decide
example : readObjectHeader [0x95, 0x03] = .ok (53, 1, 2) := by decide
example : readPktLine (strBytes "0008NAK\n" ++ [1, 2]) = .ok (8, strBytes "NAK") := by decide
example : readPktLine (strBytes "0000") = .ok (4, []) := by decide

/-!
## Delta reconstruction (`writeDeltaObject`)
-/

/-- The inner `for bit := 0; bit < 7; bit++` loop of the copy instruction:
for each set bit of the opcode consume one byte and add it shifted by
`8 * bit` into the 56-bit argument accumulator (no wrap is possible: seven
bytes below 256 shifted by at most 48 bits).  Returns (argument, unread rest);
running out of bytes is a Go index panic. -/
def copyArgLoop (opcode : Nat) : List Nat → List Nat → Nat → Except String (Nat × List Nat)
  | [], rest, argument => .ok (argument, rest)
  | bit :: bits, rest, argument =>
    if opcode &&& (1 <<< bit) ≠ 0 then
      match rest with
      | [] => .error "panic: index out of range"
      | b :: rest' => copyArgLoop opcode bits rest' (argument + b <<< (bit * 8))
    else copyArgLoop opcode bits rest argument

theorem copyArgLoop_rest_le (opcode : Nat) :
    ∀ bits rest argument a r, copyArgLoop opcode bits rest argument = .ok (a, r) →
      r.length ≤ rest.length := by
  intro bits
  induction bits with
  | nil =>
    intro rest argument a r h
    simp only [copyArgLoop] at h
    cases h
    exact Nat.le_refl _
  | cons bit bits ih =>
    intro rest argument a r h
    simp only [copyArgLoop] at h
    split at h
    · cases rest with
      | nil => exact absurd h (by simp)
      | cons b rest' =>
        have := ih rest' _ _ _ h
        exact Nat.le_trans this (by simp)
    · exact ih rest argument a r h

/-- The instruction loop of `writeDeltaObject`, carried over the unread part
of the delta stream with the output accumulated in `acc`.  A copy instruction
(bit 7 set) gathers its argument with `copyArgLoop`, splits it into a 32-bit
offset and a 24-bit size (0 meaning 0x10000) and appends
`baseObject[offset : offset+size]`; an insert instruction appends the next
`opcode & 0x7F` literal bytes.  An out-of-range slice is a Go panic.  The
`fuel` argument is the loop variant: each iteration consumes at least the
opcode byte, so the wrapper's `fuel = stream length` is never exhausted. -/
def deltaLoop (baseObject : List Nat) : Nat → List Nat → List Nat → Except String (List Nat)
  | _, [], acc => .ok acc
  | 0, _ :: _, _ => .error "loop variant exhausted"
  | fuel + 1, opcode :: rest, acc =>
    if opcode &&& 0x80 ≠ 0 then
      match copyArgLoop opcode [0, 1, 2, 3, 4, 5, 6] rest 0 with
      | .error e => .error e
      | .ok (argument, rest') =>
        let offset := argument &&& 0xFFFFFFFF
        let size0 := (argument >>> 32) &&& 0xFFFFFF
        let size := if size0 = 0 then 0x10000 else size0
        if offset + size ≤ baseObject.length then
          deltaLoop baseObject fuel rest' (acc ++ (baseObject.drop offset).take size)
        else .error "panic: slice bounds out of range"
    else
      let size := opcode &&& 0x7F
      if size ≤ rest.length then
        deltaLoop baseObject fuel (rest.drop size) (acc ++ rest.take size)
      else .error "panic: slice bounds out of range"

/-- The pure reconstruction part of `writeDeltaObject`: the two size varints,
the base length check, the instruction loop and the result length check. -/
def reconstructDelta (baseObject deltaObject : List Nat) : Except String (List Nat) :=
  match readSize deltaObject with
  | .error e => .error e
  | .ok (baseSize, used1) =>
    if baseObject.length ≠ baseSize then .error "bad delta header"
    else
      match readSize (deltaObject.drop used1) with
      | .error e => .error e
      | .ok (expectedSize, used2) =>
        let stream := deltaObject.drop (used1 + used2)
        match deltaLoop baseObject stream.length stream [] with
        | .error e => .error e
        | .ok undeltifiedObject =>
          if expectedSize ≠ undeltifiedObject.length then .error "bad delta header"
          else .ok undeltifiedObject

/-- `writeDeltaObject`: reconstruct the object from the base and the delta
stream and write it to the store with the supplied type string (the base's
type at every call site). -/
def writeDeltaObject (sha1 : List Nat → List Nat) (store : Store)
    (baseObject deltaObject : List Nat) (objectType : String) : Except String Store :=
  match reconstructDelta baseObject deltaObject with
  | .error e => .error e
  | .ok undeltifiedObject => .ok (writeObjectWithType sha1 store undeltifiedObject objectType).2

example : reconstructDelta (strBytes "hello") [5, 7, 0x90, 5, 2, 33, 33] =
    .ok (strBytes "hello!!") := by decide
example : reconstructDelta (strBytes "hello") [5, 6, 0x91, 1, 4, 2, 33, 33] =
    .ok (strBytes "ello!!") := by decide

/-!
## Reference discovery (`readPktLine` loop, `getObjectName`, `getPackfile`)
-/

/-- The pkt-line splitting loop of `getPackfile`: `for len(discovery) > 0`
read one pkt-line and advance by the consumed count.  `fuel` is the loop
variant (each line consumes at least four bytes); the wrapper passes the
input length. -/
def parsePktLines : Nat → List Nat → Except String (List (List Nat))
  | _, [] => .ok []
  | 0, _ :: _ => .error "loop variant exhausted"
  | fuel + 1, discovery =>
    match readPktLine discovery with
    | .error e => .error e
    | .ok (n, data) =>
      match parsePktLines fuel (discovery.drop n) with
      | .error e => .error e
      | .ok rest => .ok (data :: rest)

/-- The refname the clone selects. -/
def masterRef : List Nat := strBytes "refs/heads/master"

/-- The loop body of `getObjectName` over `pktLines[1:]`: skip empty lines,
scan `"%s %s"` into (hash, ref) and return the hash of the first line whose
second token is exactly `refs/heads/master`. -/
def findMasterLoop : List (List Nat) → Except String (List Nat)
  | [] => .error "invalid pktLines"
  | pktLine :: rest =>
    if pktLine.length = 0 then findMasterLoop rest
    else
      let hr := scanStrStr pktLine
      if hr.2 = masterRef then .ok hr.1 else findMasterLoop rest

/-- `getObjectName`: iterate `pktLines[1:]` (slicing an empty list panics in
Go) looking for `refs/heads/master`. -/
def getObjectName : List (List Nat) → Except String (List Nat)
  | [] => .error "panic: slice bounds out of range"
  | _ :: rest => findMasterLoop rest

/-- An HTTP response as `getPackfile` consumes it: `http.Get`/`http.Post`
return a non-nil error only for transport failures (modelled by the caller
not reaching this function), and the source reads only the body. -/
structure HttpResponse where
  statusCode : Nat
  body : List Nat
deriving DecidableEq

/-- `getPackfile` given the two already-received HTTP responses (ref
discovery GET, then upload-pack POST): split the discovery body into
pkt-lines, select the master hash, strip the first pkt-line (the NAK) off the
POST body and return (packfile bytes, object name). -/
def getPackfile (discoveryResponse packResponse : HttpResponse) :
    Except String (List Nat × List Nat) :=
  match parsePktLines discoveryResponse.body.length discoveryResponse.body with
  | .error e => .error e
  | .ok pktLines =>
    match getObjectName pktLines with
    | .error e => .error e
    | .ok objectName =>
      match readPktLine packResponse.body with
      | .error e => .error e
      | .ok (n, _) => .ok (packResponse.body.drop n, objectName)

/-!
## Packfile object iteration and delta resolution (`writePackfile`)
-/

/-- An unresolved reference-delta: the base's 40-hex name and the inflated
delta instruction stream. -/
structure DeltaObject where
  baseObject : String
  data : List Nat
deriving DecidableEq

/-- One pass of the delta-resolution fixpoint loop: resolve (reconstruct and
store, via `writeDeltaObject` with the base's type from `openObject`) every
delta whose base exists in the store as of its turn, and collect the others
in order into the residual queue.  `added` records whether any delta was
resolved.  Returns (store, residual queue, added). -/
def resolvePass (sha1 : List Nat → List Nat) :
    Store → Bool → List DeltaObject → Except String (Store × List DeltaObject × Bool)
  | store, added, [] => .ok (store, [], added)
  | store, added, delta :: rest =>
    if objectExists store delta.baseObject then
      match openObject store delta.baseObject with
      | .error e => .error e
      | .ok (baseObject, objectType) =>
        match writeDeltaObject sha1 store baseObject delta.data objectType with
        | .error e => .error e
        | .ok store' => resolvePass sha1 store' true rest
    else
      match resolvePass sha1 store added rest with
      | .error e => .error e
      | .ok (store', unadded, added') => .ok (store', delta :: unadded, added')

/-- The `for len(deltaObjects) > 0` fixpoint loop: run passes until the queue
is empty, failing (`bad delta objects`) when a pass resolves nothing.  `fuel`
is the loop variant: a progressing pass strictly shrinks the queue, so the
wrapper's `fuel = queue length` is never exhausted (`resolveDeltas_spec`). -/
def resolveDeltasLoop (sha1 : List Nat → List Nat) :
    Nat → Store → List DeltaObject → Except String Store
  | _, store, [] => .ok store
  | 0, _, _ :: _ => .error "loop variant exhausted"
  | fuel + 1, store, deltaObjects =>
    match resolvePass sha1 store false deltaObjects with
    | .error e => .error e
    | .ok (store', unadded, added) =>
      if !added then .error "bad delta objects"
      else resolveDeltasLoop sha1 fuel store' unadded

/-- The delta-resolution fixpoint with its variant initialised to the queue
length. -/
def resolveDeltas (sha1 : List Nat → List Nat) (store : Store)
    (deltaObjects : List DeltaObject) : Except String Store :=
  resolveDeltasLoop sha1 deltaObjects.length store deltaObjects

/-- Pack object type codes, as the Go constants. -/
def OBJ_COMMIT : Nat := 1
def OBJ_TREE : Nat := 2
def OBJ_BLOB : Nat := 3
def OBJ_TAG : Nat := 4
def OBJ_OFS_DELTA : Nat := 6
def OBJ_REF_DELTA : Nat := 7

/-- The type strings for the four base object kinds (the Go map literal). -/
def objectTypeStr (t : Nat) : String :=
  if t = OBJ_COMMIT then "commit"
  else if t = OBJ_TREE then "tree"
  else if t = OBJ_BLOB then "blob"
  else if t = OBJ_TAG then "tag"
  else ""

/-- The `for used < len(packfile)` object iteration of `writePackfile` over
the pack body (after the 12-byte header, before the 20-byte trailer), carried
over the unread part.  `inflate` is the zlib contract of
`readObjectInPackfile`: (compressed bytes consumed, inflated bytes) or an
error.  Base objects are stored immediately; a reference-delta is enqueued;
an offset-delta is consumed (base-offset varint, then the deflate stream,
with the length check) and then rejected; other type codes are rejected.
`fuel` is the loop variant (the header consumes at least one byte); the
wrapper passes the body length.  Returns (store, delta queue, objects read). -/
def packLoop (inflate : List Nat → Except String (Nat × List Nat))
    (sha1 : List Nat → List Nat) :
    Nat → List Nat → Store → List DeltaObject → Nat →
    Except String (Store × List DeltaObject × Nat)
  | _, [], store, deltaObjects, objectsRead => .ok (store, deltaObjects, objectsRead)
  | 0, _ :: _, _, _, _ => .error "loop variant exhausted"
  | fuel + 1, rest, store, deltaObjects, objectsRead =>
    match readObjectHeader rest with
    | .error e => .error e
    | .ok (size, objectType, used) =>
      if objectType = OBJ_COMMIT ∨ objectType = OBJ_TREE ∨ objectType = OBJ_BLOB ∨
          objectType = OBJ_TAG then
        match inflate (rest.drop used) with
        | .error e => .error e
        | .ok (read, object) =>
          if size ≠ object.length then .error "bad object header length"
          else
            let store' := (writeObjectWithType sha1 store object (objectTypeStr objectType)).2
            packLoop inflate sha1 fuel (rest.drop (used + read)) store' deltaObjects
              (objectsRead + 1)
      else if objectType = OBJ_OFS_DELTA then
        match readSize (rest.drop used) with
        | .error e => .error e
        | .ok (_, read1) =>
          match inflate (rest.drop (used + read1)) with
          | .error e => .error e
          | .ok (_, object) =>
            if size ≠ object.length then .error "bad object header length"
            else .error "cant handle ofsdelta object"
      else if objectType = OBJ_REF_DELTA then
        if (rest.drop used).length < 20 then .error "panic: slice bounds out of range"
        else
          let hash := (rest.drop used).take 20
          match inflate (rest.drop (used + 20)) with
          | .error e => .error e
          | .ok (read, object) =>
            if size ≠ object.length then .error "bad object header length"
            else
              packLoop inflate sha1 fuel (rest.drop (used + 20 + read)) store
                (deltaObjects ++ [⟨hexDump hash, object⟩]) (objectsRead + 1)
      else .error "invalid object type"

/-- `writePackfile`: verify the envelope, read the object count, iterate the
object records of the body, require the declared count, then run the delta
fixpoint. -/
def writePackfile (inflate : List Nat → Except String (Nat × List Nat))
    (sha1 : List Nat → List Nat) (store : Store) (packfile : List Nat) :
    Except String Store :=
  match verifyPackfile sha1 packfile with
  | .error e => .error e
  | .ok _ =>
    let numObjects := readUint32BigEndian (packfile.drop 8)
    let body := (packfile.take (packfile.length - 20)).drop 12
    match packLoop inflate sha1 body.length body store [] 0 with
    | .error e => .error e
    | .ok (store', deltaObjects, objectsRead) =>
      if numObjects ≠ objectsRead then .error "bad object count"
      else resolveDeltas sha1 store' deltaObjects

/-!
## Trees and checkout
-/

/-- A tree entry: 20 raw hash bytes, name and octal mode string. -/
structure TreeEntry where
  hash : List Nat
  name : String
  mode : String
deriving DecidableEq

/-- `parseTreeEntry`: split at the first NUL, cut the header at the first
space into (mode, name), take the next 20 bytes as the hash (Go panics when
fewer remain).  Returns (entry, bytes consumed). -/
def parseTreeEntry (b : List Nat) : Except String (TreeEntry × Nat) :=
  match idxOfZero b with
  | none => .error "cannot parse tree entry"
  | some i =>
    let header := b.take i
    let mode := header.takeWhile (fun c => c ≠ 32)
    if mode.length = header.length then .error "cannot parse tree entry"
    else if b.length < i + 21 then .error "panic: slice bounds out of range"
    else
      let name := header.drop (mode.length + 1)
      .ok (⟨(b.drop (i + 1)).take 20, bytesToString name, bytesToString mode⟩, i + 21)

/-- The entry loop of `parseTree` over the payload after the header's NUL
(`fuel` = loop variant, each entry consumes at least 21 bytes). -/
def parseTreeLoop : Nat → List Nat → Except String (List TreeEntry)
  | _, [] => .ok []
  | 0, _ :: _ => .error "loop variant exhausted"
  | fuel + 1, b =>
    match parseTreeEntry b with
    | .error e => .error e
    | .ok (entry, skipN) =>
      match parseTreeLoop fuel (b.drop skipN) with
      | .error e => .error e
      | .ok entries => .ok (entry :: entries)

/-- `parseTree`: skip past the first NUL (with `IndexByte` returning -1 the Go
code starts at offset 0) and iterate entries. -/
def parseTree (b : List Nat) : Except String (List TreeEntry) :=
  let offset := match idxOfZero b with
                | none => 0
                | some i => i + 1
  parseTreeLoop (b.drop offset).length (b.drop offset)

/-- `readTree`: read the object and parse its entry list. -/
def readTree (store : Store) (object : String) : Except String (List TreeEntry) :=
  match readObject store object with
  | .error e => .error e
  | .ok treeData => parseTree treeData

/-- A filesystem effect of checkout, in order of execution. -/
inductive FsAction where
  | mkdirAll (dir : String) (perm : Nat)
  | writeFile (path : String) (content : List Nat) (perm : Nat)
deriving DecidableEq

mutual

/-- `checkoutTree`: `MkdirAll(dir, 0755)`, read the tree, then process its
entries.  `fuel` bounds the tree recursion depth (the hash-addressed object
graph is acyclic, so any fuel at least the depth behaves identically). -/
def checkoutTree (store : Store) : Nat → String → String → Except String (List FsAction)
  | 0, _, _ => .error "recursion limit"
  | fuel + 1, tree, dir =>
    match readTree store tree with
    | .error e => .error e
    | .ok entries =>
      match checkoutEntries store fuel dir entries with
      | .error e => .error e
      | .ok acts => .ok (.mkdirAll dir 0o755 :: acts)

/-- The entry loop of `checkoutTree`: mode `"40000"` recurses into a
subdirectory, `"100644"`/`"100755"` reads the blob (must be of type `blob`)
and writes the file with permission 0644, and any other mode is skipped. -/
def checkoutEntries (store : Store) : Nat → String → List TreeEntry → Except String (List FsAction)
  | _, _, [] => .ok []
  | fuel, dir, entry :: rest =>
    let hashStr := hexDump entry.hash
    let fullPath := dir ++ "/" ++ entry.name
    if entry.mode = "40000" then
      match checkoutTree store fuel hashStr fullPath with
      | .error e => .error e
      | .ok acts =>
        match checkoutEntries store fuel dir rest with
        | .error e => .error e
        | .ok acts' => .ok (acts ++ acts')
    else if entry.mode = "100644" ∨ entry.mode = "100755" then
      match openObject store hashStr with
      | .error e => .error e
      | .ok (blob, objectType) =>
        if objectType ≠ "blob" then .error "object not a blob"
        else
          match checkoutEntries store fuel dir rest with
          | .error e => .error e
          | .ok acts => .ok (.writeFile fullPath blob 0o644 :: acts)
    else checkoutEntries store fuel dir rest

end

/-!
## C3: the packfile envelope check
-/

theorem readUint32BigEndian_take (l : List Nat) (k : Nat) (hk : 4 ≤ k) :
    readUint32BigEndian (l.take k) = readUint32BigEndian l := by
  unfold readUint32BigEndian
  have h0 : (l.take k).getD 0 0 = l.getD 0 0 := by
    simp [List.getD_eq_getElem?_getD, List.getElem?_take_of_lt (show 0 < k by omega)]
  have h1 : (l.take k).getD 1 0 = l.getD 1 0 := by
    simp [List.getD_eq_getElem?_getD, List.getElem?_take_of_lt (show 1 < k by omega)]
  have h2 : (l.take k).getD 2 0 = l.getD 2 0 := by
    simp [List.getD_eq_getElem?_getD, List.getElem?_take_of_lt (show 2 < k by omega)]
  have h3 : (l.take k).getD 3 0 = l.getD 3 0 := by
    simp [List.getD_eq_getElem?_getD, List.getElem?_take_of_lt (show 3 < k by omega)]
  rw [h0, h1, h2, h3]

/-- C3: `verifyPackfile` succeeds exactly when the packfile is at least 32
bytes long, its final 20 bytes equal the SHA-1 of all preceding bytes, its
first 4 bytes are `"PACK"` and its 4-byte big-endian version at offset 4 is
2 or 3; any violation (a corrupted trailer byte in particular) yields an
error. -/
theorem verifyPackfile_ok_iff (sha1 : List Nat → List Nat) (p : List Nat) :
    verifyPackfile sha1 p = .ok () ↔
      (32 ≤ p.length
       ∧ p.drop (p.length - 20) = sha1 (p.take (p.length - 20))
       ∧ p.take 4 = strBytes "PACK"
       ∧ (readUint32BigEndian (p.drop 4) = 2 ∨ readUint32BigEndian (p.drop 4) = 3)) := by
  simp only [verifyPackfile]
  split_ifs with h1 h2 h3 h4
  · constructor
    · intro h; exact absurd h (by simp)
    · intro h; omega
  · constructor
    · intro h; exact absurd h (by simp)
    · intro h; exact absurd h.2.1 h2
  · have htake : (p.take (p.length - 20)).take 4 = p.take 4 := by
      rw [List.take_take]
      congr 1
      omega
    constructor
    · intro h; exact absurd h (by simp)
    · intro h
      exact absurd (htake ▸ h.2.2.1) h3
  · have hver : readUint32BigEndian ((p.take (p.length - 20)).drop 4) =
        readUint32BigEndian (p.drop 4) := by
      rw [List.drop_take, readUint32BigEndian_take _ _ (by omega)]
    constructor
    · intro h; exact absurd h (by simp)
    · intro h
      rcases h.2.2.2 with hv | hv
      · exact absurd (hver.symm ▸ hv) h4.1
      · exact absurd (hver.symm ▸ hv) h4.2
  · have htake : (p.take (p.length - 20)).take 4 = p.take 4 := by
      rw [List.take_take]
      congr 1
      omega
    have hver : readUint32BigEndian ((p.take (p.length - 20)).drop 4) =
        readUint32BigEndian (p.drop 4) := by
      rw [List.drop_take, readUint32BigEndian_take _ _ (by omega)]
    constructor
    · intro _
      refine ⟨by omega, not_not.mp h2, htake ▸ not_not.mp h3, ?_⟩
      rw [← hver]
      rcases Decidable.em (readUint32BigEndian ((p.take (p.length - 20)).drop 4) = 2) with hv | hv
      · exact Or.inl hv
      · exact Or.inr (by tauto)
    · intro _; rfl

/-!
## C7: pkt-line frame round-trip
-/

theorem shiftLeft_lor_eq_add (a b k : Nat) (hb : b < 2 ^ k) :
    a <<< k ||| b = a * 2 ^ k + b := by
  apply Nat.eq_of_testBit_eq
  intro j
  rw [Nat.testBit_or, Nat.testBit_shiftLeft, Nat.mul_comm a (2 ^ k),
    Nat.testBit_mul_pow_two_add a hb j]
  rcases Nat.lt_or_ge j k with hjk | hjk
  · rw [if_pos hjk]
    have hd : decide (k ≤ j) = false := by simp; omega
    simp [hd]
  · rw [if_neg (by omega)]
    have hbj : b.testBit j = false :=
      Nat.testBit_lt_two_pow (lt_of_lt_of_le hb (Nat.pow_le_pow_right (by norm_num) hjk))
    have hd : decide (k ≤ j) = true := by simp [hjk]
    simp [hd, hbj]

theorem fromHexChar_hexDigitByte (d : Nat) (hd : d < 16) :
    fromHexChar (hexDigitByte d) = some d := by
  rcases Nat.lt_or_ge d 10 with h | h
  · simp only [hexDigitByte, if_pos h, fromHexChar]
    rw [if_pos (by omega)]
    congr 1
    omega
  · simp only [hexDigitByte, if_neg (show ¬d < 10 by omega), fromHexChar]
    rw [if_neg (by omega), if_pos (by omega)]
    congr 1
    omega

theorem hexDecode4_hex4Bytes (v : Nat) (hv : v < 65536) :
    hexDecode4 (hex4Bytes v) = some v := by
  have hm : ∀ x : Nat, x % 16 < 16 := fun x => Nat.mod_lt _ (by norm_num)
  simp only [hex4Bytes, hexDecode4]
  rw [fromHexChar_hexDigitByte _ (hm _), fromHexChar_hexDigitByte _ (hm _),
    fromHexChar_hexDigitByte _ (hm _), fromHexChar_hexDigitByte _ (hm _)]
  simp only []
  congr 1
  rw [shiftLeft_lor_eq_add _ _ 4 (show v % 16 < 2 ^ 4 from hm _),
    shiftLeft_lor_eq_add _ _ 4 (show v / 256 % 16 < 2 ^ 4 from hm _),
    shiftLeft_lor_eq_add _ _ 8 (show v / 16 % 16 * 2 ^ 4 + v % 16 < 2 ^ 8 by
      have := hm (v / 16)
      have := hm v
      omega)]
  omega

theorem length_hex4Bytes (v : Nat) : (hex4Bytes v).length = 4 := by
  simp [hex4Bytes]

/-- C7 (counterexample): for the one-byte payload `[0x0A]` — a single newline
— the frame is `"0005\n"`, and `readPktLine` consumes 5 bytes but returns the
*empty* payload, not the payload itself: the trailing-newline strip breaks
the round-trip as literally stated. -/
theorem readPktLine_frame_newline_cex :
    frame [10] = [48, 48, 48, 53, 10] ∧
      readPktLine (frame [10]) = .ok (5, []) ∧
      ([] : List Nat) ≠ [10] := by
  refine ⟨by decide, by decide, by decide⟩

/-- C7 (amended): for any payload `p` with `|p| ≤ 65516`, parsing the frame
of `p` consumes `|p| + 4` bytes and returns the payload with one trailing
newline stripped (the payload itself whenever it does not end in `0x0A`); the
empty payload frames as the flush packet `"0000"`, parsing as 4 bytes
consumed and empty payload. -/
theorem readPktLine_frame (p : List Nat) (h : p.length ≤ 65516) :
    readPktLine (frame p) = .ok (p.length + 4, stripTrailingNewline p) ∧
      frame [] = strBytes "0000" := by
  refine ⟨?_, by decide⟩
  rcases eq_or_ne p [] with rfl | hp
  · decide
  · have hlen : 1 ≤ p.length := by
      cases p with
      | nil => exact absurd rfl hp
      | cons a l => simp
    have hv : p.length + 4 < 65536 := by omega
    rw [frame, if_neg hp, readPktLine]
    rw [if_neg (by simp only [List.length_append, length_hex4Bytes]; omega)]
    rw [List.take_left' (length_hex4Bytes _), hexDecode4_hex4Bytes _ hv]
    rw [List.drop_left' (length_hex4Bytes _)]
    simp only []
    rw [if_neg (by omega), if_neg (by omega), if_neg (by omega), if_neg (by omega)]
    rw [show p.length + 4 - 4 = p.length by omega, List.take_length]
    rfl

/-- C7 (witness): the amended round-trip at the concrete payload
`"done\n"`. -/
theorem readPktLine_frame_witness :
    (strBytes "done\n").length ≤ 65516 ∧
      readPktLine (frame (strBytes "done\n")) = .ok (9, strBytes "done") := by
  refine ⟨by decide, ?_⟩
  rw [(readPktLine_frame (strBytes "done\n") (by decide)).1]
  decide

/-!
## C4: a 0x00 insert instruction byte
-/

/-- C4 (counterexample): the delta stream `[1, 1, 0x00, 1, 97]` over the base
`[97]` contains the insert instruction byte `0x00` (high bit clear, low seven
bits zero) at position 2, yet `writeDeltaObject` succeeds — the byte is
processed as a zero-length insert, not rejected. -/
theorem writeDeltaObject_insert_zero_cex :
    ([1, 1, 0, 1, 97] : List Nat)[2]? = some 0 ∧
      reconstructDelta [97] [1, 1, 0, 1, 97] = .ok [97] ∧
      writeDeltaObject (fun _ => List.replicate 20 0) [] [97] [1, 1, 0, 1, 97] "blob" =
        .ok [(hexDump (List.replicate 20 0), typedSerialize "blob" [97])] := by
  refine ⟨by decide, by decide, by decide⟩

/-- C4 (amended): an insert instruction byte `0x00` is *not* rejected:
`opcode & 0x7F = 0` makes the instruction loop append zero literal bytes and
continue with the rest of the stream unchanged. -/
theorem deltaLoop_insert_zero (B rest acc : List Nat) (fuel : Nat) :
    deltaLoop B (fuel + 1) (0 :: rest) acc = deltaLoop B fuel rest acc := by
  simp [deltaLoop]

/-!
## C5: selecting `refs/heads/master` from the advertised refs
-/

/-- C5 (counterexample): an advertisement whose second line carries
`refs/heads/master` immediately followed by a NUL-separated capability list.
The `%s` scan verb does not stop at NUL, so the scanned refname is
`"refs/heads/master\0multi_ack ..."`, the comparison fails, and
`getObjectName` returns an error instead of the line's hash. -/
theorem getObjectName_capabilities_cex :
    (strBytes "aaaaaaaaaaaaaaaaaaaaaaaaaaaaaaaaaaaaaaaa refs/heads/master" ++ [0] ++
        strBytes "multi_ack side-band-64k" =
      strBytes "aaaaaaaaaaaaaaaaaaaaaaaaaaaaaaaaaaaaaaaa" ++ [32] ++ masterRef ++ [0] ++
        strBytes "multi_ack side-band-64k") ∧
      getObjectName [strBytes "# service=git-upload-pack",
          strBytes "aaaaaaaaaaaaaaaaaaaaaaaaaaaaaaaaaaaaaaaa refs/heads/master" ++ [0] ++
            strBytes "multi_ack side-band-64k"] =
        .error "invalid pktLines" := by
  refine ⟨by decide, by decide⟩

/-- C5 (amended): `getObjectName` scans each non-empty line after the first
with `"%s %s"` and returns the first token of the first line whose *second
whitespace-delimited token* is byte-for-byte `refs/heads/master`; a
NUL-separated capability list glued to the refname is not stripped (it
defeats the match), and if no line's second token matches, the function
errors. -/
theorem getObjectName_spec (l0 : List Nat) (ls : List (List Nat)) :
    getObjectName (l0 :: ls) =
      match ls.find? (fun line => (scanStrStr line).2 == masterRef) with
      | some line => .ok (scanStrStr line).1
      | none => .error "invalid pktLines" := by
  show findMasterLoop ls = _
  induction ls with
  | nil => rfl
  | cons l ls ih =>
    unfold findMasterLoop
    by_cases hl : l.length = 0
    · rw [if_pos hl]
      have hnil : l = [] := List.length_eq_zero.mp hl
      subst hnil
      have hp : ((scanStrStr ([] : List Nat)).2 == masterRef) = false := by decide
      simp only [List.find?_cons, hp, ih]
    · rw [if_neg hl]
      by_cases hm : (scanStrStr l).2 = masterRef
      · have hp : ((scanStrStr l).2 == masterRef) = true := by
          simp [hm]
        rw [if_pos hm]
        simp only [List.find?_cons, hp]
      · have hp : ((scanStrStr l).2 == masterRef) = false := by
          simp [hm]
        rw [if_neg hm]
        simp only [List.find?_cons, hp, ih]

/-!
## C9: HTTP status codes
-/

/-- C9 (counterexample): a 404 ref-discovery response and a 500 upload-pack
response whose bodies are well-formed still produce `.ok`: the source never
inspects `response.StatusCode`. -/
theorem getPackfile_non200_cex :
    getPackfile
        ⟨404, frame (strBytes "# service=git-upload-pack\n") ++
          frame (strBytes "aaaaaaaaaaaaaaaaaaaaaaaaaaaaaaaaaaaaaaaa refs/heads/master\n") ++
          strBytes "0000"⟩
        ⟨500, frame (strBytes "NAK\n") ++ [80, 75, 1, 2]⟩ =
      .ok ([80, 75, 1, 2], strBytes "aaaaaaaaaaaaaaaaaaaaaaaaaaaaaaaaaaaaaaaa") := by
  decide

/-- C9 (amended): `getPackfile` never inspects the HTTP status code of either
exchange — its result depends only on the two response bodies, so a non-200
response with a parseable body is processed exactly like a 200 (and failure
arises only from transport errors or a body that does not parse). -/
theorem getPackfile_status_independent (s1 s1' s2 s2' : Nat) (b1 b2 : List Nat) :
    getPackfile ⟨s1, b1⟩ ⟨s2, b2⟩ = getPackfile ⟨s1', b1⟩ ⟨s2', b2⟩ := rfl

/-!
## C10: checkout entry dispatch
-/

/-- C10: processing a tree entry list: an entry whose mode is none of
`"40000"`, `"100644"`, `"100755"` is silently skipped (no filesystem action,
no error); a `"40000"` entry is recursed into as a directory
(`checkoutTree` on the entry's hash at `dir/name`); a `"100644"` or
`"100755"` entry whose object is a blob is written to `dir/name` with
permission 0644. -/
theorem checkoutEntries_dispatch (store : Store) (fuel : Nat) (dir : String)
    (e : TreeEntry) (rest : List TreeEntry) :
    (e.mode ≠ "40000" → e.mode ≠ "100644" → e.mode ≠ "100755" →
      checkoutEntries store fuel dir (e :: rest) = checkoutEntries store fuel dir rest) ∧
    (e.mode = "40000" →
      checkoutEntries store fuel dir (e :: rest) =
        match checkoutTree store fuel (hexDump e.hash) (dir ++ "/" ++ e.name) with
        | .error er => .error er
        | .ok acts =>
          match checkoutEntries store fuel dir rest with
          | .error er => .error er
          | .ok acts' => .ok (acts ++ acts')) ∧
    (∀ blob, (e.mode = "100644" ∨ e.mode = "100755") →
      openObject store (hexDump e.hash) = .ok (blob, "blob") →
      checkoutEntries store fuel dir (e :: rest) =
        match checkoutEntries store fuel dir rest with
        | .error er => .error er
        | .ok acts => .ok (.writeFile (dir ++ "/" ++ e.name) blob 0o644 :: acts)) := by
  refine ⟨?_, ?_, ?_⟩
  · intro h1 h2 h3
    rw [checkoutEntries]
    rw [if_neg h1, if_neg (by tauto)]
  · intro h1
    rw [checkoutEntries, if_pos h1]
  · intro blob h1 h2
    rw [checkoutEntries]
    rw [if_neg (by rcases h1 with h | h <;> simp [h]), if_pos h1, h2]
    simp

/-- C10 (witness): a symlink-mode entry (`"120000"`) is skipped and checkout
of the singleton tree succeeds with no file action. -/
theorem checkoutEntries_dispatch_witness :
    (("120000" : String) ≠ "40000" ∧ ("120000" : String) ≠ "100644" ∧
        ("120000" : String) ≠ "100755") ∧
      checkoutEntries [] 5 "out" [⟨List.replicate 20 0, "link", "120000"⟩] = .ok [] := by
  refine ⟨⟨by decide, by decide, by decide⟩, ?_⟩
  have h := (checkoutEntries_dispatch [] 5 "out" ⟨List.replicate 20 0, "link", "120000"⟩ []).1
    (by decide) (by decide) (by decide)
  rw [h, checkoutEntries]

/-!
## C6: content addressing of the object store
-/

theorem natToDecBytesF_digits :
    ∀ fuel n, n < fuel → ∀ d ∈ natToDecBytesF fuel n, 48 ≤ d ∧ d ≤ 57 := by
  intro fuel
  induction fuel with
  | zero => intro n h; omega
  | succ fuel ih =>
    intro n h d hd
    rw [natToDecBytesF] at hd
    split at hd
    · rename_i h10
      simp only [List.mem_singleton] at hd
      omega
    · rename_i h10
      rcases List.mem_append.mp hd with hd | hd
      · exact ih (n / 10) (by omega) d hd
      · simp only [List.mem_singleton] at hd
        have : n % 10 < 10 := Nat.mod_lt _ (by omega)
        omega

theorem natToDecBytes_digits (n : Nat) : ∀ d ∈ natToDecBytes n, 48 ≤ d ∧ d ≤ 57 :=
  natToDecBytesF_digits (n + 1) n (Nat.lt_succ_self n)

theorem natToDecBytesF_ne_nil :
    ∀ fuel n, n < fuel → natToDecBytesF fuel n ≠ [] := by
  intro fuel
  induction fuel with
  | zero => intro n h; omega
  | succ fuel ih =>
    intro n h
    rw [natToDecBytesF]
    split
    · simp
    · simp

theorem natToDecBytes_ne_nil (n : Nat) : natToDecBytes n ≠ [] :=
  natToDecBytesF_ne_nil (n + 1) n (Nat.lt_succ_self n)

theorem decBytesVal_append_digit (l : List Nat) (d : Nat) :
    decBytesVal (l ++ [d]) = decBytesVal l * 10 + (d - 48) := by
  simp [decBytesVal, List.foldl_append]

theorem decBytesVal_natToDecBytesF :
    ∀ fuel n, n < fuel → decBytesVal (natToDecBytesF fuel n) = n := by
  intro fuel
  induction fuel with
  | zero => intro n h; omega
  | succ fuel ih =>
    intro n h
    rw [natToDecBytesF]
    split
    · rename_i h10
      simp [decBytesVal]
    · rename_i h10
      rw [decBytesVal_append_digit, ih (n / 10) (by omega)]
      omega

theorem decBytesVal_natToDecBytes (n : Nat) : decBytesVal (natToDecBytes n) = n :=
  decBytesVal_natToDecBytesF (n + 1) n (Nat.lt_succ_self n)

theorem idxOfZero_append (l1 l2 : List Nat) (h : ∀ b ∈ l1, b ≠ 0) :
    idxOfZero (l1 ++ 0 :: l2) = some l1.length := by
  induction l1 with
  | nil => simp [idxOfZero]
  | cons a t ih =>
    have ht := ih (fun b hb => h b (List.mem_cons_of_mem a hb))
    simp only [List.cons_append, idxOfZero, if_neg (h a (List.mem_cons_self a t)),
      List.append_eq, ht, Option.map_some', List.length_cons]

theorem takeWhile_append_stop (p : Nat → Bool) (l1 l2 : List Nat) (a : Nat)
    (h1 : ∀ b ∈ l1, p b = true) (ha : p a = false) :
    (l1 ++ a :: l2).takeWhile p = l1 := by
  induction l1 with
  | nil => rw [List.nil_append, List.takeWhile_cons_of_neg (by simp [ha])]
  | cons x t ih =>
    rw [List.cons_append, List.takeWhile_cons_of_pos (h1 x (List.mem_cons_self x t)),
      ih (fun b hb => h1 b (List.mem_cons_of_mem x hb))]

theorem takeWhile_eq_self_of_all (p : Nat → Bool) (l : List Nat)
    (h : ∀ b ∈ l, p b = true) : l.takeWhile p = l := by
  induction l with
  | nil => rfl
  | cons a t ih =>
    rw [List.takeWhile_cons_of_pos (h a (List.mem_cons_self a t))]
    rw [ih (fun b hb => h b (List.mem_cons_of_mem a hb))]

theorem dropWhile_eq_self_of_head (p : Nat → Bool) (l : List Nat)
    (h : ∀ b ∈ l, p b = false) : l.dropWhile p = l := by
  cases l with
  | nil => rfl
  | cons a t => exact List.dropWhile_cons_of_neg (by simp [h a (List.mem_cons_self a t)])

/-- `scanStrNat` on a well-formed object header `"<type> <n>"`: the type
token, then the decimal value. -/
theorem scanStrNat_header (tb : List Nat) (n : Nat)
    (hne : tb ≠ []) (hall : ∀ b ∈ tb, isGoSpace b = false) :
    scanStrNat (tb ++ 32 :: natToDecBytes n) = (tb, n) := by
  simp only [scanStrNat]
  have hdrop : (tb ++ 32 :: natToDecBytes n).dropWhile isGoSpace =
      tb ++ 32 :: natToDecBytes n := by
    obtain ⟨a, t, rfl⟩ := List.exists_cons_of_ne_nil hne
    exact List.dropWhile_cons_of_neg (by simp [hall a (List.mem_cons_self a t)])
  rw [hdrop]
  have htake : (tb ++ 32 :: natToDecBytes n).takeWhile (fun b => !isGoSpace b) = tb :=
    takeWhile_append_stop _ _ _ _ (fun b hb => by simp [hall b hb]) (by simp [isGoSpace])
  rw [htake]
  rw [List.drop_left' rfl]
  rw [List.dropWhile_cons_of_pos (by simp [isGoSpace])]
  rw [dropWhile_eq_self_of_head _ _ (fun b hb => by
    have := natToDecBytes_digits n b hb
    simp [isGoSpace]
    omega)]
  rw [takeWhile_eq_self_of_all _ _ (fun b hb => by
    have := natToDecBytes_digits n b hb
    simp [isDecDigit]
    omega)]
  rw [decBytesVal_natToDecBytes]

theorem bytesToString_strBytes (s : String) : bytesToString (strBytes s) = s := by
  simp [bytesToString, strBytes, List.map_map, Function.comp_def]

/-- `openObject` on a store entry holding `"<type> <n>\0<payload>"`: succeeds
with (payload, type) exactly when the declared size `n` equals the payload
length, and fails with `bad object size` otherwise. -/
theorem openObject_typed (store : Store) (key : String) (tb : List Nat)
    (P : List Nat) (n : Nat)
    (hfind : List.lookup key store = some (tb ++ [32] ++ natToDecBytes n ++ [0] ++ P))
    (hne : tb ≠ []) (hsp : ∀ b ∈ tb, isGoSpace b = false) (hz : ∀ b ∈ tb, b ≠ 0) :
    openObject store key =
      if n = P.length then .ok (P, bytesToString tb) else .error "bad object size" := by
  have hdata : tb ++ [32] ++ natToDecBytes n ++ [0] ++ P =
      (tb ++ 32 :: natToDecBytes n) ++ 0 :: P := by
    simp
  unfold openObject readObject
  rw [hfind, hdata]
  have hz' : ∀ b ∈ tb ++ 32 :: natToDecBytes n, b ≠ 0 := by
    intro b hb
    rcases List.mem_append.mp hb with hb | hb
    · exact hz b hb
    · rcases List.mem_cons.mp hb with rfl | hb
      · omega
      · have := natToDecBytes_digits n b hb
        omega
  simp only []
  rw [idxOfZero_append _ _ hz']
  simp only []
  rw [List.take_left]
  rw [scanStrNat_header tb n hne hsp]
  have hlen : ((tb ++ 32 :: natToDecBytes n) ++ 0 :: P).length =
      (tb ++ 32 :: natToDecBytes n).length + 1 + P.length := by
    simp
    omega
  have hdrop2 : ((tb ++ 32 :: natToDecBytes n) ++ 0 :: P).drop
      ((tb ++ 32 :: natToDecBytes n).length + 1) = P := by
    rw [← List.drop_drop]
    rw [List.drop_left]
    rfl
  rcases eq_or_ne n P.length with rfl | hn
  · rw [if_neg (by omega), if_pos rfl]
    rw [hdrop2]
  · rw [if_pos (by omega), if_neg hn]

/-- C6: for every payload `P` and type `T ∈ {blob, tree, commit, tag}`,
writing the typed serialization through `writeObjectWithType` returns the
SHA-1 of `"<T> <len(P)>\0<P>"` as the hash, and reading that hash back with
`openObject` returns exactly `(P, T)`; and `openObject` fails with
`bad object size` on any stored object whose declared decimal size `n`
differs from the length of the payload after the first NUL. -/
theorem objectStore_roundtrip (sha1 : List Nat → List Nat) (store store2 : Store)
    (P : List Nat) (T : String) (n : Nat) (key : String)
    (hT : T = "blob" ∨ T = "tree" ∨ T = "commit" ∨ T = "tag")
    (hn : n ≠ P.length) :
    (writeObjectWithType sha1 store P T).1 = sha1 (typedSerialize T P) ∧
      openObject (writeObjectWithType sha1 store P T).2
        (hexDump (sha1 (typedSerialize T P))) = .ok (P, T) ∧
      openObject ((key, strBytes T ++ [32] ++ natToDecBytes n ++ [0] ++ P) :: store2) key =
        .error "bad object size" := by
  have hne : strBytes T ≠ [] := by
    rcases hT with rfl | rfl | rfl | rfl <;> decide
  have hsp : ∀ b ∈ strBytes T, isGoSpace b = false := by
    rcases hT with rfl | rfl | rfl | rfl <;> decide
  have hz : ∀ b ∈ strBytes T, b ≠ 0 := by
    rcases hT with rfl | rfl | rfl | rfl <;> decide
  refine ⟨rfl, ?_, ?_⟩
  · have hfind : List.lookup (hexDump (sha1 (typedSerialize T P)))
        ((writeObjectWithType sha1 store P T).2) = some (typedSerialize T P) := by
      unfold writeObjectWithType writeObject
      exact List.lookup_cons_self
    have h := openObject_typed _ _ (strBytes T) P P.length
      (by rw [hfind]; rfl) hne hsp hz
    rw [h, if_pos rfl, bytesToString_strBytes]
  · have h := openObject_typed ((key, strBytes T ++ [32] ++ natToDecBytes n ++ [0] ++ P) :: store2)
      key (strBytes T) P n List.lookup_cons_self hne hsp hz
    rw [h, if_neg hn]

/-- C6 (witness): the round-trip at `P = "hi"`, `T = "blob"` with a concrete
hash function, and the size-mismatch failure at declared size 7. -/
theorem objectStore_roundtrip_witness :
    (("blob" : String) = "blob" ∨ ("blob" : String) = "tree" ∨
        ("blob" : String) = "commit" ∨ ("blob" : String) = "tag") ∧
      (7 : Nat) ≠ ([104, 105] : List Nat).length ∧
      openObject (writeObjectWithType (fun _ => List.replicate 20 1) [] [104, 105] "blob").2
        (hexDump ((fun (_ : List Nat) => List.replicate 20 1) (typedSerialize "blob" [104, 105]))) =
        .ok ([104, 105], "blob") ∧
      openObject [("k", strBytes "blob" ++ [32] ++ natToDecBytes 7 ++ [0] ++ [104, 105])] "k" =
        .error "bad object size" := by
  have h := objectStore_roundtrip (fun _ => List.replicate 20 1) [] [] [104, 105] "blob" 7 "k"
    (Or.inl rfl) (by decide)
  exact ⟨Or.inl rfl, by decide, h.2.1, h.2.2⟩

/-!
## C8: offset-delta objects are consumed and then rejected
-/

/-- C8: whenever the object iteration of `writePackfile` meets a header of
type 6 (offset-delta), it fails: the base-offset varint and the deflate
stream are consumed first, an inflated-length mismatch (or an earlier varint
or inflate failure) produces its own error, and otherwise the result is
exactly the unsupported-offset-delta error — the object is never written to
the store.  A loop error makes `writePackfile` itself return it. -/
theorem packLoop_ofs_delta (inflate : List Nat → Except String (Nat × List Nat))
    (sha1 : List Nat → List Nat) (store : Store) (deltas : List DeltaObject)
    (cnt fuel : Nat) (rest : List Nat) (size hu : Nat)
    (hHdr : readObjectHeader rest = .ok (size, OBJ_OFS_DELTA, hu)) :
    (∃ e, packLoop inflate sha1 (fuel + 1) rest store deltas cnt = .error e) ∧
      (∀ v r2 nr obj, readSize (rest.drop hu) = .ok (v, r2) →
        inflate (rest.drop (hu + r2)) = .ok (nr, obj) →
        (obj.length ≠ size →
          packLoop inflate sha1 (fuel + 1) rest store deltas cnt =
            .error "bad object header length") ∧
        (obj.length = size →
          packLoop inflate sha1 (fuel + 1) rest store deltas cnt =
            .error "cant handle ofsdelta object")) ∧
      (∀ e pf st0, packLoop inflate sha1
          ((pf.take (pf.length - 20)).drop 12).length ((pf.take (pf.length - 20)).drop 12)
          st0 [] 0 = .error e →
        verifyPackfile sha1 pf = .ok () →
        writePackfile inflate sha1 st0 pf = .error e) := by
  have hne : rest ≠ [] := by
    intro hnil
    rw [hnil] at hHdr
    exact absurd hHdr (by simp [readObjectHeader])
  obtain ⟨r0, rest', rfl⟩ := List.exists_cons_of_ne_nil hne
  have hstep : packLoop inflate sha1 (fuel + 1) (r0 :: rest') store deltas cnt =
      match readSize ((r0 :: rest').drop hu) with
      | .error e => .error e
      | .ok (_, read1) =>
        match inflate ((r0 :: rest').drop (hu + read1)) with
        | .error e => .error e
        | .ok (_, object) =>
          if size ≠ object.length then .error "bad object header length"
          else .error "cant handle ofsdelta object" := by
    rw [packLoop.eq_def]
    simp only []
    rw [hHdr]
    simp only []
    rw [if_neg (by decide), if_pos (by decide)]
  refine ⟨?_, ?_, ?_⟩
  · rw [hstep]
    cases hrs : readSize ((r0 :: rest').drop hu) with
    | error e => exact ⟨e, by simp⟩
    | ok p =>
      obtain ⟨v, r2⟩ := p
      simp only []
      cases hin : inflate ((r0 :: rest').drop (hu + r2)) with
      | error e => exact ⟨e, by simp⟩
      | ok q =>
        obtain ⟨nr, obj⟩ := q
        simp only []
        by_cases hsz : size = obj.length
        · exact ⟨"cant handle ofsdelta object", by rw [if_neg (by omega)]⟩
        · exact ⟨"bad object header length", by rw [if_pos (by omega)]⟩
  · intro v r2 nr obj hrs hin
    rw [hstep, hrs]
    simp only []
    rw [hin]
    simp only []
    constructor
    · intro hne2
      rw [if_pos (by omega)]
    · intro heq
      rw [if_neg (by omega)]
  · intro e pf st0 hloop hverify
    rw [writePackfile, hverify]
    simp only []
    rw [hloop]

/-- C8 (witness): a two-byte body whose header byte `0x60` declares an
offset-delta of size 0; with an inflater returning an empty stream the loop
fails with the unsupported-offset-delta error. -/
theorem packLoop_ofs_delta_witness :
    readObjectHeader [96, 0] = .ok (0, OBJ_OFS_DELTA, 1) ∧
      packLoop (fun _ => .ok (0, [])) (fun _ => List.replicate 20 0) 2 [96, 0] [] [] 0 =
        .error "cant handle ofsdelta object" := by
  refine ⟨by decide, ?_⟩
  have h := ((packLoop_ofs_delta (fun _ => .ok (0, [])) (fun _ => List.replicate 20 0)
    [] [] 0 1 [96, 0] 0 1 (by decide)).2.1 0 1 0 [] (by decide) (by decide)).2 (by decide)
  exact h

/-!
## C2: the delta-resolution fixpoint loop
-/

theorem resolvePass_length (sha1 : List Nat → List Nat) :
    ∀ q store a s' u ad, resolvePass sha1 store a q = .ok (s', u, ad) →
      u.length ≤ q.length ∧ (a = false → ad = true → u.length < q.length) := by
  intro q
  induction q with
  | nil =>
    intro store a s' u ad h
    rw [resolvePass] at h
    simp only [Except.ok.injEq, Prod.mk.injEq] at h
    obtain ⟨rfl, rfl, rfl⟩ := h
    refine ⟨Nat.le_refl _, ?_⟩
    intro hf ht
    rw [hf] at ht
    cases ht
  | cons d q' ih =>
    intro store a s' u ad h
    rw [resolvePass] at h
    split at h
    · split at h
      · cases h
      · split at h
        · cases h
        · have := ih _ _ _ _ _ h
          refine ⟨by simpa using Nat.le_succ_of_le this.1, ?_⟩
          intro _ _
          simp only [List.length_cons]
          omega
    · split at h
      · cases h
      · rename_i s'' u'' ad'' heq
        injection h with h
        have h1 : s'' = s' := congrArg Prod.fst h
        have h2 : d :: u'' = u := congrArg (fun x => x.2.1) h
        have h3 : ad'' = ad := congrArg (fun x => x.2.2) h
        subst h1 h2 h3
        have := ih _ _ _ _ _ heq
        refine ⟨by simpa using this.1, ?_⟩
        intro hf ht
        have := this.2 hf ht
        simp only [List.length_cons]
        omega

theorem resolveDeltasLoop_nil (sha1 : List Nat → List Nat) (fuel : Nat) (store : Store) :
    resolveDeltasLoop sha1 fuel store [] = .ok store := by
  cases fuel <;> rfl

theorem resolveDeltasLoop_cons (sha1 : List Nat → List Nat) (fuel : Nat) (store : Store)
    (d : DeltaObject) (q' : List DeltaObject) :
    resolveDeltasLoop sha1 (fuel + 1) store (d :: q') =
      match resolvePass sha1 store false (d :: q') with
      | .error e => .error e
      | .ok (store', unadded, added) =>
        if !added then .error "bad delta objects"
        else resolveDeltasLoop sha1 fuel store' unadded := rfl

theorem resolveDeltasLoop_fuel (sha1 : List Nat → List Nat) :
    ∀ fuel fuel' store (q : List DeltaObject), q.length ≤ fuel → q.length ≤ fuel' →
      resolveDeltasLoop sha1 fuel store q = resolveDeltasLoop sha1 fuel' store q := by
  intro fuel
  induction fuel with
  | zero =>
    intro fuel' store q hq hq'
    have : q = [] := List.length_eq_zero.mp (by omega)
    subst this
    rw [resolveDeltasLoop_nil, resolveDeltasLoop_nil]
  | succ f ih =>
    intro fuel' store q hq hq'
    cases q with
    | nil => rw [resolveDeltasLoop_nil, resolveDeltasLoop_nil]
    | cons d q' =>
      obtain ⟨f', rfl⟩ : ∃ f'', fuel' = f'' + 1 := by
        cases fuel' with
        | zero => simp at hq'
        | succ k => exact ⟨k, rfl⟩
      rw [resolveDeltasLoop_cons, resolveDeltasLoop_cons]
      cases hp : resolvePass sha1 store false (d :: q') with
      | error e => rfl
      | ok t =>
        obtain ⟨s', u, added⟩ := t
        simp only []
        cases added with
        | false => rfl
        | true =>
          simp only [Bool.not_true]
          have hlt := (resolvePass_length sha1 (d :: q') store false s' u true hp).2 rfl rfl
          simp only [List.length_cons] at hlt hq hq'
          exact ih f' s' u (by omega) (by omega)

/-- C2: behaviour and termination of the reference-delta resolution loop.
(1) the loop returns the store unchanged on an empty queue; (2) a delta whose
base exists in the store (as of its turn in the pass) is reconstructed and
stored with the base's type, the pass continuing on the updated store with
the progress flag set; (3) a delta whose base is missing is carried, in
order, into the residual queue; (4) a pass that starts with no progress and
resolves at least one delta strictly shrinks the queue; (5) a full pass over
a non-empty queue that resolves nothing fails with `bad delta objects`;
(6) otherwise the loop continues on the residual queue — so a delta whose
base is produced by an earlier pass of the same call is resolved in a later
pass; (7) the loop variant (initialised to the queue length) never runs out:
any fuel at least the queue length gives the same result, so the fixpoint
terminates. -/
theorem resolveDeltas_spec (sha1 : List Nat → List Nat) :
    (∀ store, resolveDeltas sha1 store [] = .ok store) ∧
      (∀ store a (d : DeltaObject) r base ty store',
        objectExists store d.baseObject = true →
        openObject store d.baseObject = .ok (base, ty) →
        writeDeltaObject sha1 store base d.data ty = .ok store' →
        resolvePass sha1 store a (d :: r) = resolvePass sha1 store' true r) ∧
      (∀ store a (d : DeltaObject) r,
        objectExists store d.baseObject = false →
        resolvePass sha1 store a (d :: r) =
          (resolvePass sha1 store a r).map (fun x => (x.1, d :: x.2.1, x.2.2))) ∧
      (∀ store q s' u, resolvePass sha1 store false q = .ok (s', u, true) →
        u.length < q.length) ∧
      (∀ store (q : List DeltaObject) s' u, q ≠ [] →
        resolvePass sha1 store false q = .ok (s', u, false) →
        resolveDeltas sha1 store q = .error "bad delta objects") ∧
      (∀ store (q : List DeltaObject) s' u, q ≠ [] →
        resolvePass sha1 store false q = .ok (s', u, true) →
        resolveDeltas sha1 store q = resolveDeltas sha1 s' u) ∧
      (∀ fuel store (q : List DeltaObject), q.length ≤ fuel →
        resolveDeltasLoop sha1 fuel store q = resolveDeltas sha1 store q) := by
  refine ⟨fun store => rfl, ?_, ?_, ?_, ?_, ?_, ?_⟩
  · intro store a d r base ty store' hex ho hw
    rw [resolvePass, if_pos hex, ho]
    simp only []
    rw [hw]
  · intro store a d r hmiss
    rw [resolvePass, if_neg (by simp [hmiss])]
    cases hp : resolvePass sha1 store a r with
    | error e => rfl
    | ok t => rfl
  · intro store q s' u h
    exact (resolvePass_length sha1 q store false s' u true h).2 rfl rfl
  · intro store q s' u hq h
    obtain ⟨d, q', rfl⟩ := List.exists_cons_of_ne_nil hq
    show resolveDeltasLoop sha1 (d :: q').length store (d :: q') = _
    rw [List.length_cons, resolveDeltasLoop_cons, h]
    rfl
  · intro store q s' u hq h
    obtain ⟨d, q', rfl⟩ := List.exists_cons_of_ne_nil hq
    have hlt := (resolvePass_length sha1 (d :: q') store false s' u true h).2 rfl rfl
    show resolveDeltasLoop sha1 (d :: q').length store (d :: q') = _
    rw [List.length_cons, resolveDeltasLoop_cons, h]
    simp only [Bool.not_true]
    exact resolveDeltasLoop_fuel sha1 q'.length u.length s' u
      (by simp only [List.length_cons] at hlt; omega) (Nat.le_refl _)
  · intro fuel store q hfuel
    exact resolveDeltasLoop_fuel sha1 fuel q.length store q hfuel (Nat.le_refl _)

/-- C2 (witness): a two-pass resolution.  The store holds one base blob `[1]`
under the name `"base"`; the queue holds first a delta whose base is the
object that the *other* delta produces, then a delta against `"base"`.  The
first pass resolves only the second delta; the second pass resolves the
carried one; the loop then succeeds with both reconstructed objects stored. -/
theorem resolveDeltas_spec_witness :
    ([(⟨hexDump ((fun l => l.take 20 ++ List.replicate (20 - List.length l) 0)
          (typedSerialize "blob" [5])), [1, 1, 1, 7]⟩ : DeltaObject),
        ⟨"base", [1, 1, 1, 5]⟩] : List DeltaObject) ≠ [] ∧
      resolveDeltas (fun l => l.take 20 ++ List.replicate (20 - List.length l) 0)
          [("base", typedSerialize "blob" [1])]
          [⟨hexDump ((fun l => l.take 20 ++ List.replicate (20 - List.length l) 0)
            (typedSerialize "blob" [5])), [1, 1, 1, 7]⟩,
           ⟨"base", [1, 1, 1, 5]⟩] =
        .ok [(hexDump ((fun l => l.take 20 ++ List.replicate (20 - List.length l) 0)
                (typedSerialize "blob" [7])), typedSerialize "blob" [7]),
             (hexDump ((fun l => l.take 20 ++ List.replicate (20 - List.length l) 0)
                (typedSerialize "blob" [5])), typedSerialize "blob" [5]),
             ("base", typedSerialize "blob" [1])] := by
  refine ⟨by decide, ?_⟩
  have h := (resolveDeltas_spec (fun l => l.take 20 ++ List.replicate (20 - List.length l) 0)).2.2.2.2.2.1
    [("base", typedSerialize "blob" [1])]
    [⟨hexDump ((fun l => l.take 20 ++ List.replicate (20 - List.length l) 0)
      (typedSerialize "blob" [5])), [1, 1, 1, 7]⟩,
     ⟨"base", [1, 1, 1, 5]⟩]
    [(hexDump ((fun l => l.take 20 ++ List.replicate (20 - List.length l) 0)
        (typedSerialize "blob" [5])), typedSerialize "blob" [5]),
     ("base", typedSerialize "blob" [1])]
    [⟨hexDump ((fun l => l.take 20 ++ List.replicate (20 - List.length l) 0)
      (typedSerialize "blob" [5])), [1, 1, 1, 7]⟩]
    (by decide) (by decide)
  rw [h]
  decide

/-!
## C1: delta reconstruction against its specification

The definitions below are modelled from the claim's words (amended for the
64-bit varint accumulator), structured as the specification describes them —
a varint splitter and an instruction fold with separately composed
little-endian offset and size — rather than as the source's index-walking
loop; the refinement theorem `writeDeltaObject_refines` proves the two
agree.
-/

/-- Modelled from the spec: the bytes of one little-endian base-128 varint
(continuation bit 7) and the remainder; `none` when the stream ends inside
the varint. -/
def specVarintBytes : List Nat → Option (List Nat × List Nat)
  | [] => none
  | b :: rest =>
    if b &&& 0x80 = 0 then some ([b], rest)
    else
      match specVarintBytes rest with
      | none => none
      | some (bs, r) => some (b :: bs, r)

/-- Modelled from the spec: the mathematical value of a varint's bytes, low
7 bits of each byte, little-endian, unbounded. -/
def specVarintValue : List Nat → Nat
  | [] => 0
  | b :: bs => (b &&& 0x7F) + 2 ^ 7 * specVarintValue bs

/-- Modelled from the claim as amended: the size varint as the 64-bit
accumulator reads it — value taken modulo `2^64` (contributions shifted past
bit 63 are discarded) and a varint of more than ten bytes rejected.  Returns
(value, bytes consumed). -/
def specReadSize (l : List Nat) : Option (Nat × Nat) :=
  match specVarintBytes l with
  | none => none
  | some (bs, _) =>
    if bs.length ≤ 10 then some (specVarintValue bs % 2 ^ 64, bs.length) else none

/-- Modelled from the spec: for each listed bit of the copy opcode, consume
one byte when the bit is selected and default the component to zero
otherwise.  Returns (component bytes, remainder). -/
def specTakeSelected (op : Nat) : List Nat → List Nat → Option (List Nat × List Nat)
  | [], rest => some ([], rest)
  | bit :: bits, rest =>
    if op &&& (1 <<< bit) ≠ 0 then
      match rest with
      | [] => none
      | b :: rest' =>
        match specTakeSelected op bits rest' with
        | none => none
        | some (vs, r) => some (b :: vs, r)
    else
      match specTakeSelected op bits rest with
      | none => none
      | some (vs, r) => some (0 :: vs, r)

/-- Little-endian byte composition (`v₀ + 256·v₁ + …`). -/
def leVal : List Nat → Nat
  | [] => 0
  | b :: bs => b + 256 * leVal bs

/-- Modelled from the spec: the instruction fold.  A copy opcode (bit 7 set)
takes four offset bytes (bits 0-3, 32-bit little-endian) and three size bytes
(bits 4-6, 24-bit little-endian), reads size 0 as 0x10000 and emits
`base[offset : offset+size]`; an insert opcode emits the next `op & 0x7F`
literal bytes; out-of-range reads fail.  `fuel` as in `deltaLoop`. -/
def specApplyInstrs (B : List Nat) : Nat → List Nat → Option (List Nat)
  | _, [] => some []
  | 0, _ :: _ => none
  | fuel + 1, op :: rest =>
    if op &&& 0x80 ≠ 0 then
      match specTakeSelected op [0, 1, 2, 3] rest with
      | none => none
      | some (ov, rest1) =>
        match specTakeSelected op [4, 5, 6] rest1 with
        | none => none
        | some (sv, rest2) =>
          let offset := leVal ov
          let size0 := leVal sv
          let size := if size0 = 0 then 0x10000 else size0
          if offset + size ≤ B.length then
            match specApplyInstrs B fuel rest2 with
            | none => none
            | some out => some ((B.drop offset).take size ++ out)
          else none
    else
      let n := op &&& 0x7F
      if n ≤ rest.length then
        match specApplyInstrs B fuel (rest.drop n) with
        | none => none
        | some out => some (rest.take n ++ out)
      else none

/-- Modelled from the claim (amended): two size varints, the base-length
check, the instruction fold, the result-length check. -/
def specReconstruct (B D : List Nat) : Option (List Nat) :=
  match specReadSize D with
  | none => none
  | some (baseSize, u1) =>
    if baseSize = B.length then
      match specReadSize (D.drop u1) with
      | none => none
      | some (resultSize, u2) =>
        match specApplyInstrs B (D.drop (u1 + u2)).length (D.drop (u1 + u2)) with
        | none => none
        | some out => if out.length = resultSize then some out else none
    else none

example : specReconstruct (strBytes "hello") [5, 7, 144, 5, 2, 33, 33] =
    some (strBytes "hello!!") := by decide

theorem specVarintBytes_ne_nil :
    ∀ l bs r, specVarintBytes l = some (bs, r) → bs ≠ [] := by
  intro l bs r h
  cases l with
  | nil => simp [specVarintBytes] at h
  | cons b rest =>
    rw [specVarintBytes] at h
    split at h
    · simp only [Option.some.injEq, Prod.mk.injEq] at h
      obtain ⟨rfl, rfl⟩ := h
      simp
    · split at h
      · cases h
      · simp only [Option.some.injEq, Prod.mk.injEq] at h
        obtain ⟨rfl, rfl⟩ := h
        simp

/-- The varint loop of the source against the specification's varint
splitter: success exactly when the varint bytes fit before the 64-bit shift
limit, with the value accumulated modulo `2^64`. -/
theorem readSizeLoop_spec (msg : String) :
    ∀ (rest : List Nat) (data size shift used : Nat),
      readSizeLoop msg rest data size shift used =
        if data &&& 0x80 = 0 then .ok (size, used)
        else
          match specVarintBytes rest with
          | none => .error msg
          | some (bs, _) =>
            if shift + 7 * (bs.length - 1) < 64 then
              .ok ((size + specVarintValue bs <<< shift) % 2 ^ 64, used + bs.length)
            else .error msg := by
  intro rest
  induction rest with
  | nil =>
    intro data size shift used
    rw [readSizeLoop]
    split
    · rfl
    · rfl
  | cons d rest' ih =>
    intro data size shift used
    rw [readSizeLoop]
    by_cases hdata : data &&& 0x80 = 0
    · rw [if_pos hdata, if_pos hdata]
    · rw [if_neg hdata, if_neg hdata]
      rw [specVarintBytes]
      by_cases hshift : 64 ≤ shift
      · rw [if_pos hshift]
        by_cases hd : d &&& 0x80 = 0
        · rw [if_pos hd]
          simp only []
          rw [if_neg (by simp; omega)]
        · rw [if_neg hd]
          cases hv : specVarintBytes rest' with
          | none => rfl
          | some p =>
            obtain ⟨bs', r⟩ := p
            simp only []
            rw [if_neg (by simp; omega)]
      · rw [if_neg hshift]
        rw [ih d _ (shift + 7) (used + 1)]
        by_cases hd : d &&& 0x80 = 0
        · rw [if_pos hd, if_pos hd]
          have hv1 : specVarintValue [d] = d &&& 0x7F := by
            rw [specVarintValue, specVarintValue]
            omega
          simp only [List.length_singleton, hv1]
          rw [if_pos (by omega)]
        · rw [if_neg hd, if_neg hd]
          cases hv : specVarintBytes rest' with
          | none => rfl
          | some p =>
            obtain ⟨bs', r⟩ := p
            simp only []
            have hbs' : bs' ≠ [] := specVarintBytes_ne_nil rest' bs' r hv
            have hlen : 1 ≤ bs'.length := by
              cases bs' with
              | nil => exact absurd rfl hbs'
              | cons x t => simp
            by_cases hcond : shift + 7 + 7 * (bs'.length - 1) < 64
            · rw [if_pos hcond, if_pos (by simp only [List.length_cons]; omega)]
              have hval : ((size + (d &&& 0x7F) <<< shift) % 2 ^ 64 +
                    specVarintValue bs' <<< (shift + 7)) % 2 ^ 64 =
                  (size + specVarintValue (d :: bs') <<< shift) % 2 ^ 64 := by
                rw [Nat.mod_add_mod]
                congr 1
                rw [specVarintValue, Nat.shiftLeft_eq, Nat.shiftLeft_eq, Nat.shiftLeft_eq,
                  Nat.pow_add]
                ring
              have hcnt : used + 1 + bs'.length = used + (d :: bs').length := by
                simp only [List.length_cons]
                omega
              rw [hval, hcnt]
            · rw [if_neg hcond, if_neg (by simp only [List.length_cons]; omega)]

/-- `readSize` succeeds with (value, used) exactly when the specification's
(amended) varint reader does. -/
theorem readSize_ok_iff (l : List Nat) (v u : Nat) :
    readSize l = .ok (v, u) ↔ specReadSize l = some (v, u) := by
  cases l with
  | nil =>
    rw [readSize, specReadSize, specVarintBytes]
    exact iff_of_false (by simp) (by simp)
  | cons d rest =>
    rw [readSize, readSizeLoop_spec, specReadSize, specVarintBytes]
    by_cases hd : d &&& 0x80 = 0
    · rw [if_pos hd, if_pos hd]
      have hb : d &&& 0x7F ≤ 0x7F := Nat.and_le_right
      have hv1 : specVarintValue [d] % 2 ^ 64 = d &&& 0x7F := by
        rw [specVarintValue, specVarintValue]
        omega
      simp only [List.length_singleton]
      rw [if_pos (by omega : (1 : Nat) ≤ 10)]
      rw [hv1]
      simp only [Except.ok.injEq, Option.some.injEq]
    · rw [if_neg hd, if_neg hd]
      cases hv : specVarintBytes rest with
      | none => exact iff_of_false (by simp) (by simp)
      | some p =>
        obtain ⟨bs', r⟩ := p
        simp only []
        have hbs' : bs' ≠ [] := specVarintBytes_ne_nil rest bs' r hv
        have hlen : 1 ≤ bs'.length := by
          cases bs' with
          | nil => exact absurd rfl hbs'
          | cons x t => simp
        by_cases hcond : 7 + 7 * (bs'.length - 1) < 64
        · rw [if_pos hcond, if_pos (by simp only [List.length_cons]; omega)]
          have hval : ((d &&& 0x7F) + specVarintValue bs' <<< 7) = specVarintValue (d :: bs') := by
            rw [specVarintValue, Nat.shiftLeft_eq]
            ring
          rw [hval]
          have hcnt : (1 : Nat) + bs'.length = (d :: bs').length := by
            simp only [List.length_cons]
            omega
          rw [hcnt]
          simp only [Except.ok.injEq, Option.some.injEq]
        · rw [if_neg hcond, if_neg (by simp only [List.length_cons]; omega)]
          exact iff_of_false (by simp) (by simp)

/-- Weighted sum of selected component bytes: byte `v` for bit `b`
contributes `v <<< (8·b)`. -/
def wSum : List Nat → List Nat → Nat
  | b :: bs, v :: vs => (v <<< (b * 8)) + wSum bs vs
  | _, _ => 0

theorem specTakeSelected_nil (op : Nat) (rest : List Nat) :
    specTakeSelected op [] rest = some ([], rest) := rfl

theorem specTakeSelected_cons (op bit : Nat) (bits rest : List Nat) :
    specTakeSelected op (bit :: bits) rest =
      if op &&& (1 <<< bit) ≠ 0 then
        match rest with
        | [] => none
        | b :: rest' =>
          match specTakeSelected op bits rest' with
          | none => none
          | some (vs, r) => some (b :: vs, r)
      else
        match specTakeSelected op bits rest with
        | none => none
        | some (vs, r) => some (0 :: vs, r) := rfl

theorem copyArgLoop_cons (op bit : Nat) (bits rest : List Nat) (argument : Nat) :
    copyArgLoop op (bit :: bits) rest argument =
      if op &&& (1 <<< bit) ≠ 0 then
        match rest with
        | [] => .error "panic: index out of range"
        | b :: rest' => copyArgLoop op bits rest' (argument + b <<< (bit * 8))
      else copyArgLoop op bits rest argument := rfl

theorem copyArgLoop_spec (op : Nat) :
    ∀ bits rest argument,
      copyArgLoop op bits rest argument =
        match specTakeSelected op bits rest with
        | none => .error "panic: index out of range"
        | some (vs, r) => .ok (argument + wSum bits vs, r) := by
  intro bits
  induction bits with
  | nil =>
    intro rest argument
    rw [show copyArgLoop op [] rest argument = .ok (argument, rest) from rfl,
      show specTakeSelected op [] rest = some ([], rest) from rfl]
    simp [wSum]
  | cons bit bits ih =>
    intro rest argument
    rw [copyArgLoop_cons, specTakeSelected_cons]
    by_cases hbit : op &&& (1 <<< bit) ≠ 0
    · rw [if_pos hbit, if_pos hbit]
      cases rest with
      | nil => rfl
      | cons b rest' =>
        simp only []
        rw [ih rest' (argument + b <<< (bit * 8))]
        cases hs : specTakeSelected op bits rest' with
        | none => rfl
        | some p =>
          obtain ⟨vs, r⟩ := p
          simp only []
          rw [wSum]
          congr 2
          omega
    · rw [if_neg hbit, if_neg hbit]
      rw [ih rest argument]
      cases hs : specTakeSelected op bits rest with
      | none => rfl
      | some p =>
        obtain ⟨vs, r⟩ := p
        simp only []
        rw [wSum]
        congr 2
        rw [Nat.zero_shiftLeft]
        omega

theorem specTakeSelected_append (op : Nat) :
    ∀ bits1 bits2 rest,
      specTakeSelected op (bits1 ++ bits2) rest =
        match specTakeSelected op bits1 rest with
        | none => none
        | some (vs1, r1) =>
          match specTakeSelected op bits2 r1 with
          | none => none
          | some (vs2, r2) => some (vs1 ++ vs2, r2) := by
  intro bits1
  induction bits1 with
  | nil =>
    intro bits2 rest
    rw [List.nil_append,
      show specTakeSelected op [] rest = some ([], rest) from rfl]
    simp only []
    cases hs : specTakeSelected op bits2 rest with
    | none => rfl
    | some p => obtain ⟨vs, r⟩ := p; simp
  | cons bit bits ih =>
    intro bits2 rest
    rw [List.cons_append, specTakeSelected_cons, specTakeSelected_cons]
    by_cases hbit : op &&& (1 <<< bit) ≠ 0
    · rw [if_pos hbit, if_pos hbit]
      cases rest with
      | nil => rfl
      | cons b rest' =>
        simp only []
        rw [ih bits2 rest']
        cases hs : specTakeSelected op bits rest' with
        | none => rfl
        | some p =>
          obtain ⟨vs1, r1⟩ := p
          simp only []
          cases hs2 : specTakeSelected op bits2 r1 with
          | none => rfl
          | some q => obtain ⟨vs2, r2⟩ := q; rfl
    · rw [if_neg hbit, if_neg hbit]
      rw [ih bits2 rest]
      cases hs : specTakeSelected op bits rest with
      | none => rfl
      | some p =>
        obtain ⟨vs1, r1⟩ := p
        simp only []
        cases hs2 : specTakeSelected op bits2 r1 with
        | none => rfl
        | some q => obtain ⟨vs2, r2⟩ := q; rfl

theorem specTakeSelected_length (op : Nat) :
    ∀ bits rest vs r, specTakeSelected op bits rest = some (vs, r) →
      vs.length = bits.length := by
  intro bits
  induction bits with
  | nil =>
    intro rest vs r h
    rw [specTakeSelected_nil] at h
    simp only [Option.some.injEq, Prod.mk.injEq] at h
    obtain ⟨rfl, rfl⟩ := h
    rfl
  | cons bit bits ih =>
    intro rest vs r h
    rw [specTakeSelected_cons] at h
    split at h
    · cases rest with
      | nil => cases h
      | cons b rest' =>
        simp only [] at h
        cases hs : specTakeSelected op bits rest' with
        | none => rw [hs] at h; cases h
        | some p =>
          obtain ⟨vs1, r1⟩ := p
          rw [hs] at h
          simp only [Option.some.injEq, Prod.mk.injEq] at h
          obtain ⟨rfl, rfl⟩ := h
          simp [ih _ _ _ hs]
    · cases hs : specTakeSelected op bits rest with
      | none => rw [hs] at h; cases h
      | some p =>
        obtain ⟨vs1, r1⟩ := p
        rw [hs] at h
        simp only [Option.some.injEq, Prod.mk.injEq] at h
        obtain ⟨rfl, rfl⟩ := h
        simp [ih _ _ _ hs]

theorem specTakeSelected_mem (op : Nat) :
    ∀ bits rest vs r, specTakeSelected op bits rest = some (vs, r) →
      (∀ v ∈ vs, v = 0 ∨ v ∈ rest) ∧ (∀ x ∈ r, x ∈ rest) := by
  intro bits
  induction bits with
  | nil =>
    intro rest vs r h
    rw [specTakeSelected_nil] at h
    simp only [Option.some.injEq, Prod.mk.injEq] at h
    obtain ⟨rfl, rfl⟩ := h
    exact ⟨by simp, fun x hx => hx⟩
  | cons bit bits ih =>
    intro rest vs r h
    rw [specTakeSelected_cons] at h
    split at h
    · cases rest with
      | nil => cases h
      | cons b rest' =>
        simp only [] at h
        cases hs : specTakeSelected op bits rest' with
        | none => rw [hs] at h; cases h
        | some p =>
          obtain ⟨vs1, r1⟩ := p
          rw [hs] at h
          simp only [Option.some.injEq, Prod.mk.injEq] at h
          obtain ⟨rfl, rfl⟩ := h
          have := ih _ _ _ hs
          constructor
          · intro v hv
            rcases List.mem_cons.mp hv with rfl | hv
            · exact Or.inr (List.mem_cons_self _ _)
            · rcases this.1 v hv with h0 | hmem
              · exact Or.inl h0
              · exact Or.inr (List.mem_cons_of_mem _ hmem)
          · intro x hx
            exact List.mem_cons_of_mem _ (this.2 x hx)
    · cases hs : specTakeSelected op bits rest with
      | none => rw [hs] at h; cases h
      | some p =>
        obtain ⟨vs1, r1⟩ := p
        rw [hs] at h
        simp only [Option.some.injEq, Prod.mk.injEq] at h
        obtain ⟨rfl, rfl⟩ := h
        have := ih _ _ _ hs
        constructor
        · intro v hv
          rcases List.mem_cons.mp hv with rfl | hv
          · exact Or.inl rfl
          · exact this.1 v hv
        · exact this.2

theorem wSum_append :
    ∀ bits1 vs1 bits2 vs2, bits1.length = vs1.length →
      wSum (bits1 ++ bits2) (vs1 ++ vs2) = wSum bits1 vs1 + wSum bits2 vs2 := by
  intro bits1
  induction bits1 with
  | nil =>
    intro vs1 bits2 vs2 h
    have : vs1 = [] := by
      cases vs1 with
      | nil => rfl
      | cons v t => simp at h
    subst this
    simp [wSum]
  | cons b bs ih =>
    intro vs1 bits2 vs2 h
    cases vs1 with
    | nil => simp at h
    | cons v vt =>
      rw [List.cons_append, List.cons_append, wSum, wSum]
      rw [ih vt bits2 vs2 (by simpa using h)]
      omega

theorem leVal_lt : ∀ vs : List Nat, (∀ v ∈ vs, v < 256) → leVal vs < 256 ^ vs.length := by
  intro vs
  induction vs with
  | nil => intro _; simp [leVal]
  | cons v vt ih =>
    intro h
    rw [leVal, List.length_cons, pow_succ]
    have h1 : v < 256 := h v (List.mem_cons_self _ _)
    have h2 : leVal vt < 256 ^ vt.length := ih (fun x hx => h x (List.mem_cons_of_mem _ hx))
    calc v + 256 * leVal vt < 256 + 256 * leVal vt := by omega
    _ = 256 * (leVal vt + 1) := by ring
    _ ≤ 256 * 256 ^ vt.length := by
        have : leVal vt + 1 ≤ 256 ^ vt.length := h2
        exact Nat.mul_le_mul_left _ this
    _ = 256 ^ vt.length * 256 := by ring

theorem wSum_offset (v0 v1 v2 v3 : Nat) :
    wSum [0, 1, 2, 3] [v0, v1, v2, v3] = leVal [v0, v1, v2, v3] := by
  simp [wSum, leVal, Nat.shiftLeft_eq]
  ring

theorem wSum_size (s0 s1 s2 : Nat) :
    wSum [4, 5, 6] [s0, s1, s2] = 2 ^ 32 * leVal [s0, s1, s2] := by
  simp [wSum, leVal, Nat.shiftLeft_eq]
  ring

theorem and32_of_split (x y : Nat) (hx : x < 2 ^ 32) :
    (x + 2 ^ 32 * y) &&& 0xFFFFFFFF = x := by
  have h1 : (0xFFFFFFFF : Nat) = 2 ^ 32 - 1 := by norm_num
  rw [h1, Nat.and_pow_two_sub_one_eq_mod, Nat.add_mul_mod_self_left, Nat.mod_eq_of_lt hx]

theorem shr32_of_split (x y : Nat) (hx : x < 2 ^ 32) (hy : y < 2 ^ 24) :
    ((x + 2 ^ 32 * y) >>> 32) &&& 0xFFFFFF = y := by
  rw [Nat.shiftRight_eq_div_pow]
  have hdiv : (x + 2 ^ 32 * y) / 2 ^ 32 = y := by
    rw [Nat.add_mul_div_left _ _ (by positivity), Nat.div_eq_of_lt hx, Nat.zero_add]
  rw [hdiv]
  have h1 : (0xFFFFFF : Nat) = 2 ^ 24 - 1 := by norm_num
  rw [h1, Nat.and_pow_two_sub_one_eq_mod, Nat.mod_eq_of_lt hy]

theorem deltaLoop_nil (B : List Nat) (fuel : Nat) (acc : List Nat) :
    deltaLoop B fuel [] acc = .ok acc := by
  cases fuel <;> rfl

theorem specApplyInstrs_nil (B : List Nat) (fuel : Nat) :
    specApplyInstrs B fuel [] = some [] := by
  cases fuel <;> rfl

theorem deltaLoop_cons (B : List Nat) (fuel opcode : Nat) (rest acc : List Nat) :
    deltaLoop B (fuel + 1) (opcode :: rest) acc =
      if opcode &&& 0x80 ≠ 0 then
        match copyArgLoop opcode [0, 1, 2, 3, 4, 5, 6] rest 0 with
        | .error e => .error e
        | .ok (argument, rest') =>
          let offset := argument &&& 0xFFFFFFFF
          let size0 := (argument >>> 32) &&& 0xFFFFFF
          let size := if size0 = 0 then 0x10000 else size0
          if offset + size ≤ B.length then
            deltaLoop B fuel rest' (acc ++ (B.drop offset).take size)
          else .error "panic: slice bounds out of range"
      else
        let size := opcode &&& 0x7F
        if size ≤ rest.length then
          deltaLoop B fuel (rest.drop size) (acc ++ rest.take size)
        else .error "panic: slice bounds out of range" := rfl

theorem specApplyInstrs_cons (B : List Nat) (fuel op : Nat) (rest : List Nat) :
    specApplyInstrs B (fuel + 1) (op :: rest) =
      if op &&& 0x80 ≠ 0 then
        match specTakeSelected op [0, 1, 2, 3] rest with
        | none => none
        | some (ov, rest1) =>
          match specTakeSelected op [4, 5, 6] rest1 with
          | none => none
          | some (sv, rest2) =>
            let offset := leVal ov
            let size0 := leVal sv
            let size := if size0 = 0 then 0x10000 else size0
            if offset + size ≤ B.length then
              match specApplyInstrs B fuel rest2 with
              | none => none
              | some out => some ((B.drop offset).take size ++ out)
            else none
      else
        let n := op &&& 0x7F
        if n ≤ rest.length then
          match specApplyInstrs B fuel (rest.drop n) with
          | none => none
          | some out => some (rest.take n ++ out)
        else none := rfl

theorem exists_len_four (vs : List Nat) (h : vs.length = 4) :
    ∃ a b c d, vs = [a, b, c, d] := by
  cases vs with
  | nil => simp at h
  | cons a t =>
    cases t with
    | nil => simp at h
    | cons b t2 =>
      cases t2 with
      | nil => simp at h
      | cons c t3 =>
        cases t3 with
        | nil => simp at h
        | cons d t4 =>
          cases t4 with
          | nil => exact ⟨a, b, c, d, rfl⟩
          | cons e t5 => simp at h

theorem exists_len_three (vs : List Nat) (h : vs.length = 3) :
    ∃ a b c, vs = [a, b, c] := by
  cases vs with
  | nil => simp at h
  | cons a t =>
    cases t with
    | nil => simp at h
    | cons b t2 =>
      cases t2 with
      | nil => simp at h
      | cons c t3 =>
        cases t3 with
        | nil => exact ⟨a, b, c, rfl⟩
        | cons d t4 => simp at h

theorem deltaLoop_ok_iff_nil (B : List Nat) (fuel : Nat) (acc out : List Nat) :
    deltaLoop B fuel [] acc = .ok out ↔
      ∃ t, specApplyInstrs B fuel [] = some t ∧ out = acc ++ t := by
  rw [deltaLoop_nil, specApplyInstrs_nil]
  constructor
  · intro h
    injection h with h
    exact ⟨[], rfl, by rw [← h, List.append_nil]⟩
  · rintro ⟨t, ht, rfl⟩
    injection ht with ht
    rw [← ht, List.append_nil]

/-- The instruction loop of the source (with its output accumulator) succeeds
exactly when the specification's instruction fold does, producing the
accumulated output. -/
theorem deltaLoop_ok_iff (B : List Nat) :
    ∀ fuel instrs acc out, (∀ b ∈ instrs, b < 256) →
      (deltaLoop B fuel instrs acc = .ok out ↔
        ∃ t, specApplyInstrs B fuel instrs = some t ∧ out = acc ++ t) := by
  intro fuel
  induction fuel with
  | zero =>
    intro instrs acc out hB
    cases instrs with
    | nil => exact deltaLoop_ok_iff_nil B 0 acc out
    | cons op rest =>
      refine iff_of_false (by rw [show deltaLoop B 0 (op :: rest) acc =
        .error "loop variant exhausted" from rfl]; simp) ?_
      rintro ⟨t, ht, _⟩
      rw [show specApplyInstrs B 0 (op :: rest) = none from rfl] at ht
      cases ht
  | succ fuel ih =>
    intro instrs acc out hB
    cases instrs with
    | nil => exact deltaLoop_ok_iff_nil B (fuel + 1) acc out
    | cons op rest =>
      have hrest_bytes : ∀ b ∈ rest, b < 256 := fun b hb => hB b (List.mem_cons_of_mem _ hb)
      rw [deltaLoop_cons, specApplyInstrs_cons]
      by_cases hop : op &&& 0x80 ≠ 0
      · rw [if_pos hop, if_pos hop]
        rw [copyArgLoop_spec]
        rw [show ([0, 1, 2, 3, 4, 5, 6] : List Nat) = [0, 1, 2, 3] ++ [4, 5, 6] from rfl]
        rw [specTakeSelected_append op [0, 1, 2, 3] [4, 5, 6] rest]
        cases h1 : specTakeSelected op [0, 1, 2, 3] rest with
        | none =>
          simp only []
          exact iff_of_false (by simp) (by rintro ⟨t, ht, _⟩; cases ht)
        | some p1 =>
          obtain ⟨ov, rest1⟩ := p1
          simp only []
          cases h2 : specTakeSelected op [4, 5, 6] rest1 with
          | none =>
            simp only []
            exact iff_of_false (by simp) (by rintro ⟨t, ht, _⟩; cases ht)
          | some p2 =>
            obtain ⟨sv, rest2⟩ := p2
            simp only []
            obtain ⟨hov_mem, hrest1_mem⟩ := specTakeSelected_mem op [0, 1, 2, 3] rest ov rest1 h1
            obtain ⟨hsv_mem, hrest2_mem⟩ := specTakeSelected_mem op [4, 5, 6] rest1 sv rest2 h2
            have hov_len : ov.length = 4 := by
              simpa using specTakeSelected_length op [0, 1, 2, 3] rest ov rest1 h1
            have hsv_len : sv.length = 3 := by
              simpa using specTakeSelected_length op [4, 5, 6] rest1 sv rest2 h2
            have hov_bytes : ∀ v ∈ ov, v < 256 := by
              intro v hv
              rcases hov_mem v hv with rfl | hm
              · omega
              · exact hrest_bytes v hm
            have hsv_bytes : ∀ v ∈ sv, v < 256 := by
              intro v hv
              rcases hsv_mem v hv with rfl | hm
              · omega
              · exact hrest_bytes v (hrest1_mem v hm)
            have hrest2_bytes : ∀ b ∈ rest2, b < 256 := fun b hb =>
              hrest_bytes b (hrest1_mem b (hrest2_mem b hb))
            have hov_lt : leVal ov < 2 ^ 32 := by
              have := leVal_lt ov hov_bytes
              rw [hov_len] at this
              norm_num at this
              exact this
            have hsv_lt : leVal sv < 2 ^ 24 := by
              have := leVal_lt sv hsv_bytes
              rw [hsv_len] at this
              norm_num at this
              exact this
            have harg : 0 + wSum ([0, 1, 2, 3] ++ [4, 5, 6]) (ov ++ sv) =
                leVal ov + 2 ^ 32 * leVal sv := by
              rw [Nat.zero_add, wSum_append [0, 1, 2, 3] ov [4, 5, 6] sv (by simp [hov_len])]
              obtain ⟨a, b, c, d, rfl⟩ := exists_len_four ov hov_len
              obtain ⟨x, y, z, rfl⟩ := exists_len_three sv hsv_len
              rw [wSum_offset, wSum_size]
            rw [harg]
            rw [and32_of_split _ _ hov_lt, shr32_of_split _ _ hov_lt hsv_lt]
            by_cases hle : leVal ov + (if leVal sv = 0 then 0x10000 else leVal sv) ≤ B.length
            · rw [if_pos hle, if_pos hle]
              rw [ih rest2 _ out hrest2_bytes]
              constructor
              · rintro ⟨t', hsp, rfl⟩
                refine ⟨(B.drop (leVal ov)).take (if leVal sv = 0 then 0x10000 else leVal sv) ++ t',
                  by rw [hsp], by rw [List.append_assoc]⟩
              · rintro ⟨t, ht, rfl⟩
                cases hsp : specApplyInstrs B fuel rest2 with
                | none => rw [hsp] at ht; cases ht
                | some t' =>
                  rw [hsp] at ht
                  injection ht with ht
                  exact ⟨t', rfl, by rw [← ht, List.append_assoc]⟩
            · rw [if_neg hle, if_neg hle]
              exact iff_of_false (by simp) (by rintro ⟨t, ht, _⟩; cases ht)
      · rw [if_neg hop, if_neg hop]
        simp only []
        by_cases hle : op &&& 0x7F ≤ rest.length
        · rw [if_pos hle, if_pos hle]
          have hdrop_bytes : ∀ b ∈ rest.drop (op &&& 0x7F), b < 256 := fun b hb =>
            hrest_bytes b (List.drop_subset _ _ hb)
          rw [ih (rest.drop (op &&& 0x7F)) _ out hdrop_bytes]
          constructor
          · rintro ⟨t', hsp, rfl⟩
            exact ⟨rest.take (op &&& 0x7F) ++ t', by rw [hsp], by rw [List.append_assoc]⟩
          · rintro ⟨t, ht, rfl⟩
            cases hsp : specApplyInstrs B fuel (rest.drop (op &&& 0x7F)) with
            | none => rw [hsp] at ht; cases ht
            | some t' =>
              rw [hsp] at ht
              injection ht with ht
              exact ⟨t', rfl, by rw [← ht, List.append_assoc]⟩
        · rw [if_neg hle, if_neg hle]
          exact iff_of_false (by simp) (by rintro ⟨t, ht, _⟩; cases ht)

/-- `reconstructDelta` succeeds with an output exactly when the
specification-level reconstruction does. -/
theorem reconstructDelta_ok_iff (B D : List Nat) (hD : ∀ b ∈ D, b < 256) (out : List Nat) :
    reconstructDelta B D = .ok out ↔ specReconstruct B D = some out := by
  simp only [reconstructDelta, specReconstruct]
  cases hs1 : specReadSize D with
  | none =>
    cases hr1 : readSize D with
    | error e => simp
    | ok p =>
      obtain ⟨v, u⟩ := p
      rw [(readSize_ok_iff D v u).mp hr1] at hs1
      cases hs1
  | some p1 =>
    obtain ⟨baseSize, u1⟩ := p1
    rw [(readSize_ok_iff D baseSize u1).mpr hs1]
    simp only []
    by_cases hbl : B.length = baseSize
    · rw [if_neg (by omega), if_pos (by omega)]
      cases hs2 : specReadSize (D.drop u1) with
      | none =>
        cases hr2 : readSize (D.drop u1) with
        | error e => simp
        | ok p =>
          obtain ⟨v, u⟩ := p
          rw [(readSize_ok_iff _ v u).mp hr2] at hs2
          cases hs2
      | some p2 =>
        obtain ⟨resultSize, u2⟩ := p2
        rw [(readSize_ok_iff _ resultSize u2).mpr hs2]
        simp only []
        have hstream_bytes : ∀ b ∈ D.drop (u1 + u2), b < 256 := fun b hb =>
          hD b (List.drop_subset _ _ hb)
        cases hsp : specApplyInstrs B (D.drop (u1 + u2)).length (D.drop (u1 + u2)) with
        | none =>
          cases hdl : deltaLoop B (D.drop (u1 + u2)).length (D.drop (u1 + u2)) [] with
          | error e => simp
          | ok w =>
            obtain ⟨t, ht, -⟩ :=
              (deltaLoop_ok_iff B (D.drop (u1 + u2)).length (D.drop (u1 + u2)) [] w
                hstream_bytes).mp hdl
            rw [hsp] at ht
            cases ht
        | some w =>
          have hdl : deltaLoop B (D.drop (u1 + u2)).length (D.drop (u1 + u2)) [] =
              .ok ([] ++ w) :=
            (deltaLoop_ok_iff B (D.drop (u1 + u2)).length (D.drop (u1 + u2)) [] ([] ++ w)
              hstream_bytes).mpr ⟨w, hsp, rfl⟩
          rw [List.nil_append] at hdl
          rw [hdl]
          simp only []
          by_cases hlen : resultSize = w.length
          · rw [if_neg (by omega), if_pos (by omega)]
            simp only [Except.ok.injEq, Option.some.injEq]
          · rw [if_pos (by omega), if_neg (by omega)]
            simp
    · rw [if_pos (by omega), if_neg (by omega)]
      simp

/-- C1 (counterexample to the claim as stated): the delta stream whose
base-size varint is the ten bytes `80 80 80 80 80 80 80 80 80 02` — the
little-endian base-128 value `2^64` — followed by a result-size varint `00`.
Against the empty base (`len(B) = 0 ≠ 2^64`) the claim requires failure, but
the 64-bit accumulator wraps the varint to 0 and `writeDeltaObject`
succeeds. -/
theorem writeDeltaObject_varint_overflow_cex :
    specVarintBytes [128, 128, 128, 128, 128, 128, 128, 128, 128, 2, 0] =
      some ([128, 128, 128, 128, 128, 128, 128, 128, 128, 2], [0]) ∧
      specVarintValue [128, 128, 128, 128, 128, 128, 128, 128, 128, 2] = 2 ^ 64 ∧
      (2 : Nat) ^ 64 ≠ ([] : List Nat).length ∧
      reconstructDelta [] [128, 128, 128, 128, 128, 128, 128, 128, 128, 2, 0] = .ok [] := by
  refine ⟨by decide, by decide, by decide, by decide⟩

/-- C1 (amended): `writeDeltaObject` refines the specification-level delta
reconstruction, with the claim's varint reading amended to the code's 64-bit
accumulator (values taken modulo `2^64`, varints of more than ten bytes
rejected): for every base `B`, delta byte stream `D` and type string `T`,
the reconstruction succeeds with output `out` exactly when the
specification's does — two size varints, base-size must equal `len(B)`,
copy instructions with 32-bit little-endian offset (bits 0-3) and 24-bit
size (bits 4-6, zero meaning 0x10000) slicing `B[offset : offset+size]`,
inserts of `op & 0x7F` literal bytes, and a final output-length check — and
in that case the reconstructed object is written to the store with the
base's type string. -/
theorem writeDeltaObject_refines (sha1 : List Nat → List Nat) (store : Store)
    (B D : List Nat) (T : String) (hD : ∀ b ∈ D, b < 256) :
    (∀ out, reconstructDelta B D = .ok out ↔ specReconstruct B D = some out) ∧
      (∀ out, reconstructDelta B D = .ok out →
        writeDeltaObject sha1 store B D T =
          .ok ((hexDump (sha1 (typedSerialize T out)), typedSerialize T out) :: store)) := by
  refine ⟨fun out => reconstructDelta_ok_iff B D hD out, ?_⟩
  intro out h
  rw [writeDeltaObject, h]
  rfl

/-- C1 (witness): the amended refinement at the base `"hello"` and a
two-instruction delta (a copy of five bytes, then a two-byte insert). -/
theorem writeDeltaObject_refines_witness :
    (∀ b ∈ [5, 7, 144, 5, 2, 33, 33], b < 256) ∧
      reconstructDelta (strBytes "hello") [5, 7, 144, 5, 2, 33, 33] =
        .ok (strBytes "hello!!") ∧
      writeDeltaObject (fun _ => List.replicate 20 2) [] (strBytes "hello")
          [5, 7, 144, 5, 2, 33, 33] "blob" =
        .ok [(hexDump (List.replicate 20 2), typedSerialize "blob" (strBytes "hello!!"))] := by
  refine ⟨by decide, ?_, ?_⟩
  · exact ((writeDeltaObject_refines (fun _ => List.replicate 20 2) [] (strBytes "hello")
      [5, 7, 144, 5, 2, 33, 33] "blob" (by decide)).1 (strBytes "hello!!")).mpr (by decide)
  · exact (writeDeltaObject_refines (fun _ => List.replicate 20 2) [] (strBytes "hello")
      [5, 7, 144, 5, 2, 33, 33] "blob" (by decide)).2 (strBytes "hello!!") (by decide)
